import Mathlib

/-!
Verification of the wikitext serializer (lib/html2wt/WikitextSerializer.js).

The JavaScript source is shallowly embedded: strings are `List Char`,
DOM nodes and the serializer state are records whose fields mirror the
data the source reads, and external collaborators (DOMUtils, the escape
oracle, the handler registry) appear as oracle fields or function
parameters.  Each definition cites the source lines it embeds.
-/

set_option maxHeartbeats 1000000

namespace WTS

/-- JS `\w` character class: `[A-Za-z0-9_]`. -/
def isWordChar (c : Char) : Bool :=
  (('a' ≤ c && c ≤ 'z') || ('A' ≤ c && c ≤ 'Z') || ('0' ≤ c && c ≤ '9') || c = '_')

/-- JS `\s` character class, restricted to the ASCII whitespace that the
serializer's buffers can contain. -/
def isSpaceChar (c : Char) : Bool :=
  (c = ' ' || c = '\t' || c = '\n' || c = '\r' || c = '\x0b' || c = '\x0c')

/-- Digit test for the `\d` class. -/
def isDigitChar (c : Char) : Bool := ('0' ≤ c && c ≤ '9')

/-- Split a buffer into lines at newline characters, as
`String.prototype.split('\n')` does (`/\n|$/` behaves identically, see
`serializeDOM` line 1233 and `_stripUnnecessaryQuoteNowikis` line 1067). -/
def splitLinesAux (acc : List Char) : List Char → List (List Char)
  | [] => [acc.reverse]
  | c :: cs =>
    if c = '\n' then acc.reverse :: splitLinesAux [] cs
    else splitLinesAux (c :: acc) cs

/-- Split a buffer into lines at newline characters. -/
def splitLines (l : List Char) : List (List Char) := splitLinesAux [] l

/-- Rejoin lines with newlines, as `Array.prototype.join('\n')`. -/
def joinLines : List (List Char) → List Char
  | [] => []
  | [x] => x
  | x :: xs => x ++ '\n' :: joinLines xs

theorem splitLinesAux_ne_nil (acc l) : splitLinesAux acc l ≠ [] := by
  induction l generalizing acc with
  | nil => simp [splitLinesAux]
  | cons c cs ih =>
    simp only [splitLinesAux]
    split
    · simp
    · exact ih _

theorem joinLines_splitLinesAux (acc : List Char) (l : List Char) :
    joinLines (splitLinesAux acc l) = acc.reverse ++ l := by
  induction l generalizing acc with
  | nil => simp [splitLinesAux, joinLines]
  | cons c cs ih =>
    simp only [splitLinesAux]
    split
    · rename_i h
      subst h
      have hne := splitLinesAux_ne_nil ([] : List Char) cs
      cases hsp : splitLinesAux ([] : List Char) cs with
      | nil => exact absurd hsp hne
      | cons y ys =>
        simp only [joinLines]
        have := ih ([] : List Char)
        rw [hsp] at this
        cases ys with
        | nil => simp only [joinLines] at this ⊢; simp [this]
        | cons z zs => simp only [joinLines] at this ⊢; simp [this]
    · rw [ih]; simp

/-- Splitting and rejoining a buffer is the identity. -/
theorem joinLines_splitLines (l : List Char) : joinLines (splitLines l) = l := by
  simpa using joinLines_splitLinesAux [] l

theorem mem_splitLinesAux_no_newline :
    ∀ (l : List Char) (acc x), '\n' ∉ acc → x ∈ splitLinesAux acc l → '\n' ∉ x := by
  intro l
  induction l with
  | nil =>
    intro acc x hacc hx
    simp only [splitLinesAux, List.mem_singleton] at hx
    subst hx
    simpa using hacc
  | cons c cs ih =>
    intro acc x hacc hx
    simp only [splitLinesAux] at hx
    split at hx
    · rcases List.mem_cons.mp hx with h | h
      · subst h; simpa using hacc
      · exact ih [] x (by simp) h
    · rename_i hc
      refine ih (c :: acc) x ?_ hx
      intro hmem
      rcases List.mem_cons.mp hmem with h | h
      · exact hc h.symm
      · exact hacc h

/-- Every line produced by `splitLines` is newline-free. -/
theorem mem_splitLines_no_newline (l x) (hx : x ∈ splitLines l) : '\n' ∉ x :=
  mem_splitLinesAux_no_newline l [] x (by simp) (by simpa [splitLines] using hx)

theorem splitLines_append_newline (a : List Char) (l : List Char) (ha : '\n' ∉ a) :
    splitLines (a ++ '\n' :: l) = a :: splitLines l := by
  have key : ∀ (b : List Char) (acc : List Char), '\n' ∉ b →
      splitLinesAux acc (b ++ '\n' :: l) = (acc.reverse ++ b) :: splitLines l := by
    intro b
    induction b with
    | nil => intro acc _; simp [splitLinesAux, splitLines]
    | cons c cs ih =>
      intro acc hna
      have hc : ¬(c = '\n') := fun h => hna (by simp [h])
      simp only [List.cons_append, splitLinesAux, hc, if_false, List.append_eq]
      rw [ih (c :: acc) (fun h => hna (List.mem_cons_of_mem _ h))]
      simp
  simpa [splitLines] using key a [] ha

/-- Rejoining newline-free lines and splitting again is the identity. -/
theorem splitLines_joinLines (ls : List (List Char)) (hne : ls ≠ [])
    (h : ∀ x ∈ ls, '\n' ∉ x) : splitLines (joinLines ls) = ls := by
  induction ls with
  | nil => exact absurd rfl hne
  | cons x xs ih =>
    cases xs with
    | nil =>
      simp only [joinLines, splitLines]
      have hx := h x (by simp)
      induction x with
      | nil => simp [splitLinesAux]
      | cons c cs ihc =>
        have hc : ¬(c = '\n') := fun hh => hx (by simp [hh])
        simp only [splitLinesAux, hc, if_false]
        have := mem_splitLinesAux_no_newline
        -- reduce to the accumulator-general statement
        clear ihc
        have key : ∀ (acc : List Char) (m : List Char), '\n' ∉ m →
            splitLinesAux acc m = [acc.reverse ++ m] := by
          intro acc m hm
          induction m generalizing acc with
          | nil => simp [splitLinesAux]
          | cons d ds ihd =>
            have hd : ¬(d = '\n') := fun hh => hm (by simp [hh])
            simp only [splitLinesAux, hd, if_false]
            rw [ihd (d :: acc) (fun hh => hm (List.mem_cons_of_mem _ hh))]
            simp
        rw [key (c :: []) cs (fun hh => hx (List.mem_cons_of_mem _ hh))]
        simp
    | cons y ys =>
      simp only [joinLines]
      rw [splitLines_append_newline x (joinLines (y :: ys)) (h x (by simp))]
      rw [ih (by simp) (fun z hz => h z (List.mem_cons_of_mem _ hz))]

/-! ## C1/C2: the selser source-reuse path of `_serializeDOMNode`
(WikitextSerializer.js lines 790-931). -/

/-- JS `a > b` on possibly-undefined numbers: comparison with `undefined`
is false. -/
def jsGtOpt : Option Int → Option Int → Bool
  | some a, some b => a > b
  | _, _ => false

/-- JS `a === b` on possibly-undefined numbers: `undefined === undefined`
is true. -/
def jsEqOpt : Option Int → Option Int → Bool
  | some a, some b => a = b
  | none, none => true
  | _, _ => false

/-- Modelled from the spec: `Util.isValidDSR` (lib/utils/Util.js, not in
src).  Spec section 3: dsr values satisfying `0 ≤ start ≤ end` are
"valid"; a missing start or end is invalid. -/
def isValidDSR : Option Int → Option Int → Bool
  | some s, some e => 0 ≤ s && s ≤ e
  | _, _ => false

/-- Modelled from the spec: `WTSUtils.hasValidTagWidths` (WTSUtils.js, not
in src).  Spec sections 3 and 4.8: both open and close widths present and
never negative. -/
def hasValidTagWidths (ow cw : Option Int) : Bool :=
  match ow, cw with
  | some a, some b => 0 ≤ a && 0 ≤ b
  | _, _ => false

/-- `state.getOrigSrc(start, end)`: the original source bytes
`source[start..end]`. -/
def getOrigSrc (src : List Char) (s e : Int) : List Char :=
  (src.take e.toNat).drop s.toNat

/-- The serializer-state fields `_serializeDOMNode` reads
(SerializerState.js is external; fields per spec section 3). -/
structure SelserState where
  selserMode : Bool
  inModifiedContent : Bool
  origSrc : List Char
  deriving Repr, DecidableEq

/-- A DOM element as `_serializeDOMNode` sees it.  Boolean fields whose
values are computed by external DOMUtils/diff-mark helpers
(`origSrcValidInEditedContext`, `hasDiffMarkers`, `hasInsertedDiffMark`,
`onlySubtreeChanged`, `isFirstEncapWrapper`) are carried as oracle data
on the node. -/
structure SelserNode where
  nodeName : String
  dsr0 : Option Int
  dsr1 : Option Int
  dsr2 : Option Int
  dsr3 : Option Int
  fostered : Bool
  misnested : Bool
  autoInsertedStart : Bool
  autoInsertedEnd : Bool
  origSrcValidInEditedContext : Bool
  hasDiffMarkers : Bool
  hasInsertedDiffMark : Bool
  onlySubtreeChanged : Bool
  isFirstEncapWrapper : Bool

/-- How the walker continues after `_serializeDOMNode` (the returned
"next node"): past the whole encapsulation envelope
(`DU.skipOverEncapsulatedContent`, line 898), the next sibling
(line 900), or whatever the invoked DOM handler returns. -/
inductive NextNodeAction where
  | skipEncapsulated
  | nextSibling
  | fromHandler
  deriving Repr, DecidableEq

/-- Outcome of `_serializeDOMNode` on one node: the verbatim-reused
source bytes if the selser reuse path was taken, whether the DOM handler
was invoked, the `wrapperUnmodified` flag passed to it, how the walker
continues, and the `currNodeUnmodified`/`inModifiedContent` state
updates. -/
structure DOMNodeOutcome where
  reusedSrc : Option (List Char)
  handlerInvoked : Bool
  wrapperUnmodified : Bool
  next : NextNodeAction
  currNodeUnmodified : Bool
  inModifiedContentForHandler : Bool
  deriving Repr, DecidableEq

/-- The zero-width tag whitelist `/^(P|BR|OL)$/` (line 839). -/
def zeroWidthTagOk (name : String) : Bool :=
  (name = "P" || name = "BR" || name = "OL")

/-- The selser source-reuse guard of `_serializeDOMNode`
(lines 828-840).  `dp` itself is always truthy in JS, so the `dp &&`
conjunct is omitted. -/
def selserReuseGuard (st : SelserState) (nd : SelserNode) : Bool :=
  st.selserMode && !st.inModifiedContent
    && nd.origSrcValidInEditedContext
    && isValidDSR nd.dsr0 nd.dsr1
    && (jsGtOpt nd.dsr1 nd.dsr0
      || (jsEqOpt nd.dsr1 nd.dsr0 && zeroWidthTagOk nd.nodeName)
      || nd.fostered || nd.misnested)

/-- `_serializeDOMNode` (lines 790-931): the selser reuse path emits the
original source verbatim and skips the handler; otherwise the node's DOM
handler runs, with `wrapperUnmodified` per lines 904-916. -/
def serializeDOMNode (st : SelserState) (nd : SelserNode) : DOMNodeOutcome :=
  if selserReuseGuard st nd then
    if !nd.hasDiffMarkers then
      { reusedSrc := some (getOrigSrc st.origSrc (nd.dsr0.getD 0) (nd.dsr1.getD 0))
        handlerInvoked := false
        wrapperUnmodified := false
        next := if nd.isFirstEncapWrapper then .skipEncapsulated else .nextSibling
        currNodeUnmodified := true
        inModifiedContentForHandler := st.inModifiedContent }
    else
      { reusedSrc := none
        handlerInvoked := true
        wrapperUnmodified :=
          nd.onlySubtreeChanged && hasValidTagWidths nd.dsr2 nd.dsr3
            && ((!nd.autoInsertedStart && !nd.autoInsertedEnd)
              || nd.nodeName = "TD" || nd.nodeName = "TH" || nd.nodeName = "TR")
        next := .fromHandler
        currNodeUnmodified := false
        inModifiedContentForHandler :=
          st.inModifiedContent || (st.selserMode && nd.hasInsertedDiffMark) }
  else
    { reusedSrc := none
      handlerInvoked := true
      wrapperUnmodified := false
      next := .fromHandler
      currNodeUnmodified := false
      inModifiedContentForHandler :=
        st.inModifiedContent || (st.selserMode && nd.hasInsertedDiffMark) }

/-- C1: in selser mode, a node is serialized by emitting its original
source bytes `source[dsr[0]..dsr[1]]` verbatim exactly when: the
serializer is not inside a modified-content span, the caller's oracle
says the original source is still valid in the edited context, the DSR
is valid and either end > start, or end = start with tag in {P, BR, OL},
or the node is fostered or misnested, and the node carries no diff
markers. -/
theorem c1_selser_reuse_condition (st : SelserState) (nd : SelserNode)
    (hsel : st.selserMode = true) :
    ((serializeDOMNode st nd).reusedSrc.isSome = true ↔
      (st.inModifiedContent = false
        ∧ nd.origSrcValidInEditedContext = true
        ∧ isValidDSR nd.dsr0 nd.dsr1 = true
        ∧ (∃ s e, nd.dsr0 = some s ∧ nd.dsr1 = some e
            ∧ (e > s ∨ (e = s ∧ zeroWidthTagOk nd.nodeName = true)
              ∨ nd.fostered = true ∨ nd.misnested = true))
        ∧ nd.hasDiffMarkers = false))
      ∧ ((serializeDOMNode st nd).reusedSrc.isSome = true →
          (serializeDOMNode st nd).reusedSrc =
            some (getOrigSrc st.origSrc (nd.dsr0.getD 0) (nd.dsr1.getD 0))) := by
  constructor
  · constructor
    · intro h
      unfold serializeDOMNode at h
      by_cases hg : selserReuseGuard st nd = true
      · simp only [hg, if_true] at h
        by_cases hd : nd.hasDiffMarkers = true
        · simp [hd] at h
        · have hd' : nd.hasDiffMarkers = false := Bool.eq_false_iff.mpr hd
          unfold selserReuseGuard at hg
          simp only [Bool.and_eq_true, Bool.not_eq_true', Bool.or_eq_true] at hg
          obtain ⟨⟨⟨⟨_, hmod⟩, horig⟩, hdsr⟩, hwidth⟩ := hg
          refine ⟨hmod, horig, hdsr, ?_, hd'⟩
          cases h0 : nd.dsr0 with
          | none => rw [h0] at hdsr; simp [isValidDSR] at hdsr
          | some s =>
            cases h1 : nd.dsr1 with
            | none => rw [h0, h1] at hdsr; simp [isValidDSR] at hdsr
            | some e =>
              refine ⟨s, e, rfl, rfl, ?_⟩
              rw [h0, h1] at hwidth
              rcases hwidth with ((hgt | heq) | hf) | hm
              · left
                simpa [jsGtOpt] using hgt
              · obtain ⟨heq1, heq2⟩ := heq
                right; left
                exact ⟨by simpa [jsEqOpt] using heq1, heq2⟩
              · right; right; left; exact hf
              · right; right; right; exact hm
      · simp only [Bool.not_eq_true] at hg
        simp [hg] at h
    · intro ⟨hmod, horig, hdsr, ⟨s, e, h0, h1, hw⟩, hd⟩
      have hg : selserReuseGuard st nd = true := by
        unfold selserReuseGuard
        simp only [Bool.and_eq_true, Bool.not_eq_true', Bool.or_eq_true]
        refine ⟨⟨⟨⟨hsel, hmod⟩, horig⟩, hdsr⟩, ?_⟩
        rcases hw with hgt | ⟨heq, hz⟩ | hf | hm
        · left; left; left; rw [h0, h1]; simpa [jsGtOpt] using hgt
        · left; left; right; rw [h0, h1]; simp [jsEqOpt, heq, hz]
        · left; right; exact hf
        · right; exact hm
      unfold serializeDOMNode
      simp [hg, hd]
  · intro h
    unfold serializeDOMNode at h ⊢
    by_cases hg : selserReuseGuard st nd = true
    · by_cases hd : nd.hasDiffMarkers = true
      · simp [hg, hd] at h
      · have hd' : nd.hasDiffMarkers = false := Bool.eq_false_iff.mpr hd
        simp [hg, hd']
    · simp only [Bool.not_eq_true] at hg
      simp [hg] at h

/-- Witness for C1 at a concrete state and node: the slice `[1..3]` of
source `"xfoox"` is reused. -/
theorem c1_selser_reuse_condition_witness :
    (serializeDOMNode
        { selserMode := true, inModifiedContent := false, origSrc := "xfoox".data }
        { nodeName := "I", dsr0 := some 1, dsr1 := some 3,
          dsr2 := some 0, dsr3 := some 0,
          fostered := false, misnested := false,
          autoInsertedStart := false, autoInsertedEnd := false,
          origSrcValidInEditedContext := true, hasDiffMarkers := false,
          hasInsertedDiffMark := false, onlySubtreeChanged := false,
          isFirstEncapWrapper := false }).reusedSrc.isSome = true := by
  have h := c1_selser_reuse_condition
    { selserMode := true, inModifiedContent := false, origSrc := "xfoox".data }
    { nodeName := "I", dsr0 := some 1, dsr1 := some 3,
      dsr2 := some 0, dsr3 := some 0,
      fostered := false, misnested := false,
      autoInsertedStart := false, autoInsertedEnd := false,
      origSrcValidInEditedContext := true, hasDiffMarkers := false,
      hasInsertedDiffMark := false, onlySubtreeChanged := false,
      isFirstEncapWrapper := false } rfl
  exact h.1.mpr ⟨rfl, rfl, by decide, ⟨1, 3, rfl, rfl, by left; decide⟩, rfl⟩

/-- C2: a node that takes the selser verbatim-reuse path never has its
DOM handler invoked, and the walker resumes at the next sibling, or past
the whole encapsulation envelope when the node is the first wrapper of
an encapsulated template or extension. -/
theorem c2_reuse_skips_handler (st : SelserState) (nd : SelserNode)
    (h : (serializeDOMNode st nd).reusedSrc.isSome = true) :
    (serializeDOMNode st nd).handlerInvoked = false
      ∧ (serializeDOMNode st nd).next =
        (if nd.isFirstEncapWrapper then .skipEncapsulated else .nextSibling) := by
  unfold serializeDOMNode at h ⊢
  by_cases hg : selserReuseGuard st nd = true
  · by_cases hd : nd.hasDiffMarkers = true
    · simp [hg, hd] at h
    · have hd' : nd.hasDiffMarkers = false := Bool.eq_false_iff.mpr hd
      simp [hg, hd']
  · simp only [Bool.not_eq_true] at hg
    simp [hg] at h

/-- Witness for C2 at a concrete state and node (an encapsulation
wrapper: the walker skips the whole envelope). -/
theorem c2_reuse_skips_handler_witness :
    (serializeDOMNode
        { selserMode := true, inModifiedContent := false, origSrc := "abc".data }
        { nodeName := "SPAN", dsr0 := some 0, dsr1 := some 3,
          dsr2 := some 0, dsr3 := some 0,
          fostered := false, misnested := false,
          autoInsertedStart := false, autoInsertedEnd := false,
          origSrcValidInEditedContext := true, hasDiffMarkers := false,
          hasInsertedDiffMark := false, onlySubtreeChanged := false,
          isFirstEncapWrapper := true }).handlerInvoked = false := by
  have h := c2_reuse_skips_handler
    { selserMode := true, inModifiedContent := false, origSrc := "abc".data }
    { nodeName := "SPAN", dsr0 := some 0, dsr1 := some 3,
      dsr2 := some 0, dsr3 := some 0,
      fostered := false, misnested := false,
      autoInsertedStart := false, autoInsertedEnd := false,
      origSrcValidInEditedContext := true, hasDiffMarkers := false,
      hasInsertedDiffMark := false, onlySubtreeChanged := false,
      isFirstEncapWrapper := true } (by decide)
  exact h.1

end WTS

namespace WTS

/-! ## C9: `inHTMLPre` toggling in `_serializeHTMLTag` (lines 163-201)
and `_serializeHTMLEndTag` (lines 203-228). -/

/-- The `state.inHTMLPre` flag, the only state these two functions
touch. -/
structure HtmlPreState where
  inHTMLPre : Bool
  deriving Repr, DecidableEq

/-- The token data `_serializeHTMLTag`/`_serializeHTMLEndTag` read:
`DU.mkTagTk(node)` yields the lowercased tag name and the node's
data-parsoid record (`dataAttribs`). -/
structure HtmlTagNode where
  name : String
  srcTagName : Option String
  autoInsertedStart : Bool
  autoInsertedEnd : Bool
  noClose : Bool
  selfClose : Bool
  dsr0 : Int
  dsr1 : Int
  dsr2 : Int
  dsr3 : Int
  deriving Repr, DecidableEq

/-- `_serializeHTMLTag` (lines 163-201).  `Util.isVoidElement` is
external and appears as the `voidTags` list; `DU.escapeNowikiTags` as
the `escNW` oracle; the awaited `_serializeAttributes` result as
`sAttribs`.  The `inHTMLPre` flag is set before the
`wrapperUnmodified` early return, per the comment on lines 164-165. -/
def serializeHTMLTag (voidTags : List String) (escNW : List Char → List Char)
    (origSrc : List Char) (sAttribs : List Char)
    (st : HtmlPreState) (nd : HtmlTagNode) (wrapperUnmodified : Bool) :
    List Char × HtmlPreState :=
  let st1 := if nd.name = "pre" then { inHTMLPre := true } else st
  if wrapperUnmodified then
    (getOrigSrc origSrc nd.dsr0 (nd.dsr0 + nd.dsr2), st1)
  else if nd.autoInsertedStart then ([], st1)
  else
    let close := if (voidTags.contains nd.name && !nd.noClose) || nd.selfClose
                 then " /".data else []
    let sA := if sAttribs ≠ [] then ' ' :: sAttribs else []
    let tokenName := nd.srcTagName.getD nd.name
    let ret := '<' :: tokenName.data ++ sA ++ close ++ ['>']
    (if tokenName.toLower = "nowiki" then escNW ret else ret, st1)

/-- `_serializeHTMLEndTag` (lines 203-228).  Note: the
`wrapperUnmodified` early return on lines 204-207 happens before the
`pre` check, so `inHTMLPre` is not reset on that path. -/
def serializeHTMLEndTag (voidTags : List String) (escNW : List Char → List Char)
    (origSrc : List Char)
    (st : HtmlPreState) (nd : HtmlTagNode) (wrapperUnmodified : Bool) :
    List Char × HtmlPreState :=
  if wrapperUnmodified then
    (getOrigSrc origSrc (nd.dsr1 - nd.dsr3) nd.dsr1, st)
  else
    let st1 := if nd.name = "pre" then { inHTMLPre := false } else st
    let tokenName := nd.srcTagName.getD nd.name
    let ret := if !nd.autoInsertedEnd && !(voidTags.contains nd.name) && !nd.selfClose
               then '<' :: '/' :: tokenName.data ++ ['>'] else []
    (if tokenName.toLower = "nowiki" then escNW ret else ret, st1)

/-- A concrete HTML-syntax `pre` element for exercising the flag. -/
def preTagNode : HtmlTagNode :=
  { name := "pre", srcTagName := none,
    autoInsertedStart := false, autoInsertedEnd := false,
    noClose := false, selfClose := false,
    dsr0 := 0, dsr1 := 11, dsr2 := 5, dsr3 := 6 }

/-- C9 (code bug): the open tag always sets `inHTMLPre` — also in the
`wrapperUnmodified` reused-source case, per the comment on lines
164-165 — and the close tag resets it in the normal case; but in the
`wrapperUnmodified` case the close tag returns early (lines 204-207)
and leaves the flag untouched, so the toggling claimed by the spec (and
by the source's own comment) is unbalanced there. -/
theorem c9_in_html_pre_unbalanced (voidTags : List String)
    (escNW : List Char → List Char) (origSrc sAttribs : List Char)
    (st : HtmlPreState) :
    ((serializeHTMLTag voidTags escNW origSrc sAttribs st preTagNode true).2.inHTMLPre = true)
      ∧ ((serializeHTMLTag voidTags escNW origSrc sAttribs st preTagNode false).2.inHTMLPre = true)
      ∧ ((serializeHTMLEndTag voidTags escNW origSrc st preTagNode false).2.inHTMLPre = false)
      ∧ ((serializeHTMLEndTag voidTags escNW origSrc st preTagNode true).2 = st) := by
  refine ⟨rfl, rfl, rfl, rfl⟩

/-! ## C10: `_getDOMHandler` (lines 656-688) always resolves a handler
for element nodes, so the `'No dom handler found'` assertion in
`_serializeNode` (lines 959-960) is unreachable for them. -/

/-- Modelled from the spec: handler objects (DOMHandlers.js, not in
src).  Spec section 6: a handler exposes
`handle(node, state, wrapper_unmodified)`; the capability is carried as
an opaque field. -/
structure DOMHandlerObj where
  handle : Nat
  deriving Repr, DecidableEq

/-- The element data `_getDOMHandler` reads.  `nodeName` is the DOM
(uppercase) name; predicates computed by external DOMUtils helpers are
oracle fields. -/
structure HandlerNode where
  isElt : Bool
  nodeName : String
  stx : Option String
  isNewElt : Bool
  atTheTop : Bool
  parentIsDocumentFragment : Bool
  parentStx : Option String
  parentIsList : Bool
  isListItem : Bool
  parentNodeName : String

/-- The external registry and constants `_getDOMHandler` consults:
the per-node encapsulation handler (`_getEncapsulatedContentHandler`),
the `tagHandlers` map, the generic `htmlElementHandler`, and the
parent/child table-tag constants. -/
structure HandlerEnv where
  encapContentHandler : Option DOMHandlerObj
  tagHandlers : String → Option DOMHandlerObj
  htmlElementHandler : DOMHandlerObj
  parentTableTags : List String
  childTableTags : List String

/-- The registry key `nodeName + '_' + dp.stx` (line 667); a missing
`stx` concatenates as the string `"undefined"` in JS. -/
def stxKey (nodeName : String) (stx : Option String) : String :=
  nodeName ++ "_" ++ stx.getD "undefined"

/-- `_getDOMHandler` (lines 656-688). -/
def getDOMHandler (env : HandlerEnv) (nd : HandlerNode) : Option DOMHandlerObj :=
  if !nd.isElt then none
  else match env.encapContentHandler with
  | some h => some h
  | none =>
    let nodeName := nd.nodeName.toLower
    let handler := env.tagHandlers (stxKey nodeName nd.stx)
    if handler.isNone && nd.stx = some "html" && nodeName ≠ "a" then
      some env.htmlElementHandler
    else if nd.isNewElt && !nd.atTheTop && !nd.parentIsDocumentFragment
        && nd.parentStx = some "html"
        && ((nd.parentIsList && nd.isListItem)
          || (env.parentTableTags.contains nd.parentNodeName
            && env.childTableTags.contains nd.nodeName)) then
      some env.htmlElementHandler
    else
      some (handler.getD ((env.tagHandlers nodeName).getD env.htmlElementHandler))

/-- C10: for every element node, `_getDOMHandler` resolves some handler
object (falling back through the encapsulation handler, the
`(tag, syntax)` registry entry, the generic HTML element handler, and
the per-tag default), so element nodes never reach the
`'No dom handler found'` assertion. -/
theorem c10_get_dom_handler_total (env : HandlerEnv) (nd : HandlerNode)
    (h : nd.isElt = true) : (getDOMHandler env nd).isSome = true := by
  unfold getDOMHandler
  rw [h]
  simp only [Bool.not_true, Bool.false_eq_true, if_false]
  cases env.encapContentHandler with
  | some hh => rfl
  | none =>
    dsimp only
    split
    · rfl
    · split <;> rfl

/-- Witness for C10: a plain new element with an empty registry falls
back to the generic HTML element handler. -/
theorem c10_get_dom_handler_total_witness :
    (getDOMHandler
      { encapContentHandler := none, tagHandlers := fun _ => none,
        htmlElementHandler := { handle := 0 },
        parentTableTags := [], childTableTags := [] }
      { isElt := true, nodeName := "P", stx := none, isNewElt := true,
        atTheTop := false, parentIsDocumentFragment := false,
        parentStx := none, parentIsList := false, isListItem := false,
        parentNodeName := "BODY" }).isSome = true :=
  c10_get_dom_handler_total
    { encapContentHandler := none, tagHandlers := fun _ => none,
      htmlElementHandler := { handle := 0 },
      parentTableTags := [], childTableTags := [] }
    { isElt := true, nodeName := "P", stx := none, isNewElt := true,
      atTheTop := false, parentIsDocumentFragment := false,
      parentStx := none, parentIsList := false, isListItem := false,
      parentNodeName := "BODY" } rfl

end WTS

namespace WTS

/-! ## C8: `_serializeTextNode` (lines 700-748) and the `escapeText`
flag. -/

/-- Length of the maximal `([ \t]*\n)+` repetition at the head of the
list (0 when there is no repetition), for the `doubleNewlineRE_G` regex
`/\n([ \t]*\n)+/g` (line 694). -/
def nlRepsLen (l : List Char) : Nat :=
  let t := l.takeWhile (fun c => c = ' ' || c = '\t')
  match h : l.drop t.length with
  | '\n' :: r =>
    have : r.length < l.length := by
      have hlen : (l.drop t.length).length = l.length - t.length := List.length_drop ..
      rw [h] at hlen
      simp only [List.length_cons] at hlen
      omega
    t.length + 1 + nlRepsLen r
  | _ => 0
  termination_by l.length

/-- Number of matches of `/\n([ \t]*\n)+/g` in the list
(`doubleNewlineCount`, lines 704-705). -/
def countNlRuns (l : List Char) : Nat :=
  match l with
  | [] => 0
  | c :: rest =>
    if c = '\n' then
      let n := nlRepsLen rest
      if h : n = 0 then countNlRuns rest
      else
        have : rest.length - n < rest.length + 1 := by
          have := List.length_drop n rest
          omega
        1 + countNlRuns (rest.drop n)
    else countNlRuns rest
  termination_by l.length
  decreasing_by
    all_goals (simp only [List.length_cons, List.length_drop]; omega)

/-- Replace each match of `/\n([ \t]*\n)+/g` by a single newline
(line 721). -/
def collapseNlRuns (l : List Char) : List Char :=
  match l with
  | [] => []
  | c :: rest =>
    if c = '\n' then
      let n := nlRepsLen rest
      if h : n = 0 then '\n' :: collapseNlRuns rest
      else
        have : rest.length - n < rest.length + 1 := by
          have := List.length_drop n rest
          omega
        '\n' :: collapseNlRuns (rest.drop n)
    else c :: collapseNlRuns rest
  termination_by l.length
  decreasing_by
    all_goals (simp only [List.length_cons, List.length_drop]; omega)

/-- Remove a trailing `/\n\s*$/` match (`sepSuffixWithNlsRE`, lines
708-709), returning the remainder and the matched separator text. -/
def stripTrailingNlWs (l : List Char) : List Char × Option (List Char) :=
  let wsuffLen := (l.reverse.takeWhile isSpaceChar).length
  match (l.drop (l.length - wsuffLen)).findIdx? (· = '\n') with
  | none => (l, none)
  | some i =>
    let k := l.length - wsuffLen + i
    (l.take k, some (l.drop k))

/-- Strip a leading `/^[ \t]*\n+\s*/` match (`sepPrefixWithNlsRE`,
line 726): spaces and tabs, then at least one newline, then any
whitespace. -/
def stripLeadingSepNls (l : List Char) : List Char :=
  let t := l.takeWhile (fun c => c = ' ' || c = '\t')
  match l.drop t.length with
  | '\n' :: _ => (l.drop t.length).dropWhile isSpaceChar
  | _ => l

/-- The serializer-state fields `_serializeTextNode` reads and writes
(spec section 3). -/
structure TextState where
  onSOL : Bool
  currNodeUnmodified : Bool
  inNoWiki : Bool
  inHTMLPre : Bool
  inIndentPre : Bool
  escapeText : Bool
  sepSrc : Option (List Char)
  deriving Repr, DecidableEq

/-- The single `state.emitChunk` call of `_serializeTextNode`: the
emitted chunk and the value `state.escapeText` holds while the chunk is
emitted. -/
structure TextEmitRecord where
  chunk : List Char
  escapeTextAtEmit : Bool
  deriving Repr, DecidableEq

/-- `_serializeTextNode` (lines 700-748).  `Util.escapeEntities` is
external and appears as the `escEnt` oracle;
`DU.allChildrenAreText(node.parentNode)` as the `allChildrenText`
argument. -/
def serializeTextNode (escEnt : List Char → List Char) (allChildrenText : Bool)
    (st : TextState) (nodeValue : List Char) : TextState × TextEmitRecord :=
  let doubleNewlineCount := countNlRuns nodeValue
  let (res1, newSepMatch) := stripTrailingNlWs nodeValue
  let res2 :=
    if !st.inIndentPre then
      let r := if !st.inHTMLPre && (!allChildrenText || doubleNewlineCount ≠ 1)
               then collapseNlRuns res1 else res1
      stripLeadingSepNls r
    else res1
  let res3 := escEnt res2
  let flag := (st.onSOL || !st.currNodeUnmodified) && !st.inNoWiki && !st.inHTMLPre
  let st1 :=
    { st with
      escapeText := false
      sepSrc :=
        match newSepMatch with
        | some m => if st.sepSrc = none || st.sepSrc = some [] then some m else st.sepSrc
        | none => st.sepSrc }
  (st1, { chunk := res3, escapeTextAtEmit := flag })

/-- C8: during text-node emission `escapeText` equals
`(onSOL || !currNodeUnmodified) && !inNoWiki && !inHTMLPre` (line
734-735) and is reset to false immediately after the chunk is emitted
(line 737). -/
theorem c8_escape_text_flag (escEnt : List Char → List Char)
    (allChildrenText : Bool) (st : TextState) (nodeValue : List Char) :
    ((serializeTextNode escEnt allChildrenText st nodeValue).2.escapeTextAtEmit
        = ((st.onSOL || !st.currNodeUnmodified) && !st.inNoWiki && !st.inHTMLPre))
      ∧ (serializeTextNode escEnt allChildrenText st nodeValue).1.escapeText = false := by
  constructor <;> rfl

end WTS

namespace WTS

/-! ## C5: positional vs named template parameters in `_buildTemplateWT`
(lines 372-539, the `pushArg` helper at lines 425-510). -/

/-- JS `String.prototype.trim` on the whitespace the serializer
handles. -/
def jsTrim (l : List Char) : List Char :=
  ((l.dropWhile isSpaceChar).reverse.dropWhile isSpaceChar).reverse

/-- A `data-mw` template parameter value: `tpl.params[k]` with its
optional `wt`, `html` and `key.wt` properties. -/
structure TplParam where
  wt : Option (List Char)
  html : Option (List Char)
  keyWt : Option (List Char)
  deriving Repr, DecidableEq

/-- One entry of `dp.pi[tpl.i]`: preserved parameter info. -/
structure TplParamInfo where
  k : String
  named : Bool
  spc : Option (List Char × List Char × List Char × List Char)
  deriving Repr, DecidableEq

/-- The `opts` record handed to the escape oracle (lines 435-442). -/
structure TplArgOpts where
  serializeAsNamed : Bool
  isTemplate : Bool
  argPositionalIndex : Nat
  numPositionalArgs : Nat
  argIndex : Nat
  numArgs : Nat
  deriving Repr, DecidableEq

/-- The `paramInfo` default of lines 426-428: `if (!paramInfo)
paramInfo = {}` (all flags absent). -/
def defaultParamInfo (k : String) : TplParamInfo :=
  { k := k, named := false, spc := none }

/-- The parameter value (lines 452-460): the `wt` form if present at
all, else the `html` form serialized through a nested serializer
(`shtml` oracle). -/
def tplArgValue (shtml : List Char → List Char) (param : TplParam) : List Char :=
  match param.wt with
  | some w => w
  | none => shtml (param.html.getD [])

/-- The initial `opts` (lines 435-445): `serializeAsNamed` is set when
the `pi` entry carries `named` or the key differs from the running
positional counter (line 444). -/
def tplArgOpts0 (pInfo : TplParamInfo) (k : String) (numericIndex : Nat)
    (isTpl : Bool) (numPositionalArgs argIndex numArgs : Nat) : TplArgOpts :=
  { serializeAsNamed := pInfo.named || k ≠ toString numericIndex
    isTemplate := isTpl
    argPositionalIndex := numericIndex
    numPositionalArgs := numPositionalArgs
    argIndex := argIndex
    numArgs := numArgs }

/-- The escape-oracle call of line 474.  The oracle
`esc value opts = (escaped, force)` stands for
`wteHandlers.escapeTplArgWT` (escapeWikitext.js, not in src); modelled
from the spec (section 4.3): it "may report it must be emitted as named
(setting the flag) even when positional was intended", so the flag on
its result is `opts.serializeAsNamed || force`. -/
def pushArgEsc (esc : List Char → TplArgOpts → List Char × Bool)
    (shtml : List Char → List Char) (isTpl : Bool)
    (numPositionalArgs argIndex numArgs : Nat)
    (param : TplParam) (paramInfo : Option TplParamInfo) (k : String)
    (numericIndex : Nat) : List Char × Bool :=
  esc (tplArgValue shtml param)
    (tplArgOpts0 (paramInfo.getD (defaultParamInfo k)) k numericIndex
      isTpl numPositionalArgs argIndex numArgs)

/-- The final `escapedValue.serializeAsNamed` flag (lines 474, 488-495):
forced by a `key.wt` override, else the oracle's or-ed flag. -/
def pushArgNamed (esc : List Char → TplArgOpts → List Char × Bool)
    (shtml : List Char → List Char) (isTpl : Bool)
    (numPositionalArgs argIndex numArgs : Nat)
    (param : TplParam) (paramInfo : Option TplParamInfo) (k : String)
    (numericIndex : Nat) : Bool :=
  match param.keyWt with
  | some _ => true
  | none =>
    (tplArgOpts0 (paramInfo.getD (defaultParamInfo k)) k numericIndex
        isTpl numPositionalArgs argIndex numArgs).serializeAsNamed
      || (pushArgEsc esc shtml isTpl numPositionalArgs argIndex numArgs
          param paramInfo k numericIndex).2

/-- The `=`-spacing (lines 432-434, 476-484): the `pi` record's `spc`
when present, all-empty for blank-key named parameters, else the
default `['', ' ', ' ', '']`. -/
def pushArgSpc (paramInfo : Option TplParamInfo) (k : String)
    (serializeAsNamed0 : Bool) :
    List Char × List Char × List Char × List Char :=
  match (paramInfo.getD (defaultParamInfo k)).spc with
  | some s => s
  | none =>
    if serializeAsNamed0 && k = "" then ([], [], [], [])
    else ([], [' '], [' '], [])

/-- The emitted parameter name (lines 486-495): `key.wt` when present,
else the map key. -/
def pushArgName (param : TplParam) (k : String) : List Char :=
  match param.keyWt with
  | some kw => kw
  | none => k.data

/-- `pushArg` (lines 425-510): returns the pushed argument text, the
final `serializeAsNamed` flag, and the updated positional counter
(named: `spc0 ++ name ++ spc1 ++ '=' ++ spc2 ++ value.trim() ++ spc3`,
counter unchanged; positional: the escaped value untrimmed, counter
incremented, lines 497-507). -/
def pushArg (esc : List Char → TplArgOpts → List Char × Bool)
    (shtml : List Char → List Char) (isTpl : Bool)
    (numPositionalArgs argIndex numArgs : Nat)
    (param : TplParam) (paramInfo : Option TplParamInfo) (k : String)
    (numericIndex : Nat) : List Char × Bool × Nat :=
  let er := pushArgEsc esc shtml isTpl numPositionalArgs argIndex numArgs
    param paramInfo k numericIndex
  let opts0named :=
    (tplArgOpts0 (paramInfo.getD (defaultParamInfo k)) k numericIndex
      isTpl numPositionalArgs argIndex numArgs).serializeAsNamed
  let spc := pushArgSpc paramInfo k opts0named
  if pushArgNamed esc shtml isTpl numPositionalArgs argIndex numArgs
      param paramInfo k numericIndex then
    (spc.1 ++ pushArgName param k ++ spc.2.1
        ++ '=' :: (spc.2.2.1 ++ jsTrim er.1 ++ spc.2.2.2),
      true, numericIndex)
  else
    (er.1, false, numericIndex + 1)

/-- C5: a parameter is serialized as positional iff its key equals the
running positional counter and no `named` flag is set in its `pi`
entry, unless a `key.wt` override or the escape oracle forces named
form. -/
theorem c5_positional_named (esc : List Char → TplArgOpts → List Char × Bool)
    (shtml : List Char → List Char) (isTpl : Bool)
    (numPositionalArgs argIndex numArgs : Nat)
    (param : TplParam) (paramInfo : Option TplParamInfo) (k : String)
    (numericIndex : Nat) :
    (pushArg esc shtml isTpl numPositionalArgs argIndex numArgs
        param paramInfo k numericIndex).2.1 = false
      ↔ ((paramInfo.map TplParamInfo.named).getD false = false
          ∧ k = toString numericIndex
          ∧ param.keyWt = none
          ∧ (pushArgEsc esc shtml isTpl numPositionalArgs argIndex numArgs
              param paramInfo k numericIndex).2 = false) := by
  have hflag : (pushArg esc shtml isTpl numPositionalArgs argIndex numArgs
      param paramInfo k numericIndex).2.1
      = pushArgNamed esc shtml isTpl numPositionalArgs argIndex numArgs
        param paramInfo k numericIndex := by
    unfold pushArg
    dsimp only
    split <;> simp_all
  rw [hflag]
  unfold pushArgNamed
  cases hkw : param.keyWt with
  | some kw => simp [hkw]
  | none =>
    simp only [Bool.or_eq_false_iff, tplArgOpts0]
    cases paramInfo with
    | none =>
      simp only [Option.getD_none, Option.map_none, defaultParamInfo]
      constructor
      · rintro ⟨⟨-, hk⟩, hescf⟩
        exact ⟨by trivial, by simpa using hk, by trivial, hescf⟩
      · rintro ⟨-, hk, -, hescf⟩
        exact ⟨⟨by trivial, by simpa using hk⟩, hescf⟩
    | some pi0 =>
      simp only [Option.getD_some, Option.map_some]
      constructor
      · rintro ⟨⟨hn, hk⟩, hescf⟩
        exact ⟨by simpa using hn, by simpa using hk, by trivial, hescf⟩
      · rintro ⟨hn, hk, -, hescf⟩
        exact ⟨⟨by simpa using hn, by simpa using hk⟩, hescf⟩

/-- C5 companion, same claim: the emitted text per mode — positional
parameters push the escaped value untrimmed and bump the counter;
named parameters push the name, `=` and the trimmed value inside the
`spc` spacing without bumping the counter. -/
theorem c5_value_forms (esc : List Char → TplArgOpts → List Char × Bool)
    (shtml : List Char → List Char) (isTpl : Bool)
    (numPositionalArgs argIndex numArgs : Nat)
    (param : TplParam) (paramInfo : Option TplParamInfo) (k : String)
    (numericIndex : Nat) :
    ((pushArg esc shtml isTpl numPositionalArgs argIndex numArgs
          param paramInfo k numericIndex).2.1 = false →
        (pushArg esc shtml isTpl numPositionalArgs argIndex numArgs
            param paramInfo k numericIndex).1
          = (pushArgEsc esc shtml isTpl numPositionalArgs argIndex numArgs
              param paramInfo k numericIndex).1
          ∧ (pushArg esc shtml isTpl numPositionalArgs argIndex numArgs
              param paramInfo k numericIndex).2.2 = numericIndex + 1)
      ∧ ((pushArg esc shtml isTpl numPositionalArgs argIndex numArgs
            param paramInfo k numericIndex).2.1 = true →
          (∃ s0 s1 s2 s3,
            (pushArg esc shtml isTpl numPositionalArgs argIndex numArgs
                param paramInfo k numericIndex).1
              = s0 ++ pushArgName param k ++ s1
                ++ '=' :: (s2
                  ++ jsTrim (pushArgEsc esc shtml isTpl numPositionalArgs
                      argIndex numArgs param paramInfo k numericIndex).1
                  ++ s3))
            ∧ (pushArg esc shtml isTpl numPositionalArgs argIndex numArgs
                param paramInfo k numericIndex).2.2 = numericIndex) := by
  unfold pushArg
  dsimp only
  split
  · refine ⟨fun h => absurd h (by simp), fun _ => ⟨⟨_, _, _, _, rfl⟩, rfl⟩⟩
  · exact ⟨fun _ => ⟨rfl, rfl⟩, fun h => absurd h (by simp)⟩

end WTS

namespace WTS

/-! ## C6: `defaultExtensionHandler` body resolution (lines 541-651). -/

/-- `data-mw.body` of an extension: JS `typeof body.html === 'string'`
is `html.isSome`, truthiness of `body.html` is non-emptiness;
`body.extsrc !== null && !== undefined` is `extsrc.isSome`. -/
structure ExtBody where
  html : Option (List Char)
  id : Option String
  extsrc : Option (List Char)
  deriving Repr, DecidableEq

/-- The `data-mw` record of an extension node (attributes handled
separately via `_serializeAttributes`, whose awaited result is passed
in as `attrStr`). -/
structure ExtDataMW where
  name : String
  body : Option ExtBody
  deriving Repr, DecidableEq

/-- The documents `defaultExtensionHandler` can search:
`getElementById(·).innerHTML` on the node's own document, and on
`env.page.editedDoc` when that exists (lines 587-595). -/
structure ExtEnv where
  ownDocInnerHTML : String → Option (List Char)
  editedDoc : Option (String → Option (List Char))

/-- The `body.id` element lookup (lines 587-595): own document first,
then the edited document when present; `getElementById(undefined)`
finds nothing. -/
def extBodyLookup (env : ExtEnv) (bid : Option String) : Option (List Char) :=
  let own := match bid with
    | some i => env.ownDocInnerHTML i
    | none => none
  match own with
  | some h => some h
  | none =>
    match env.editedDoc with
    | some f => match bid with | some i => f i | none => none
    | none => none

/-- The `srcParts` prefix `["<", extName]` plus attributes
(lines 543, 563-567). -/
def extOpenParts (attrStr : List Char) (name : String) : List Char :=
  '<' :: name.data ++ (if attrStr ≠ [] then ' ' :: attrStr else [])

/-- The closing `["</", extName, ">"]` (line 646). -/
def extCloseParts (name : String) : List Char :=
  '<' :: '/' :: name.data ++ ['>']

/-- `defaultExtensionHandler` (lines 541-651), returning the emitted
text and the list of logged errors.  `shtml` is the nested
`serializeHTML` call of lines 626-629. -/
def defaultExtensionHandler (env : ExtEnv) (shtml : List Char → List Char)
    (attrStr : List Char) (dm : ExtDataMW) : List Char × List String :=
  let openParts := extOpenParts attrStr dm.name
  match dm.body with
  | none => (openParts ++ [' ', '/', '>'], [])
  | some body =>
    if body.html.isSome || body.id.isSome then
      match (match body.html with
             | some h => if h ≠ [] then some h else none
             | none => none) with
      | some h => (openParts ++ '>' :: (shtml h ++ extCloseParts dm.name), [])
      | none =>
        match extBodyLookup env body.id with
        | some ht =>
          (openParts ++ '>' :: ((if ht ≠ [] then shtml ht else []) ++ extCloseParts dm.name), [])
        | none => ([], ["ext-body-id-missing"])
    else
      match body.extsrc with
      | some e => (openParts ++ '>' :: (e ++ extCloseParts dm.name), [])
      | none => (openParts ++ '>' :: extCloseParts dm.name, ["ext-src-unavailable"])

/-- A concrete extension environment in which no `body.id` lookup
succeeds. -/
def c6cexEnv : ExtEnv :=
  { ownDocInnerHTML := fun _ => none, editedDoc := none }

/-- A concrete extension whose `body.id` does not resolve but whose
`body.extsrc` is present. -/
def c6cexDataMW : ExtDataMW :=
  { name := "ref", body := some { html := none, id := some "x", extsrc := some ['y'] } }

/-- C6 counterexample: the claim says `body.extsrc` is the third
resolution step and the call is dropped only "when none of the three
resolves"; but with an unresolvable `body.id` and a present
`body.extsrc`, the code logs an error and drops the whole call without
ever consulting `extsrc` (lines 615-623). -/
theorem c6_counterexample :
    (defaultExtensionHandler c6cexEnv id [] c6cexDataMW).1 = []
      ∧ c6cexDataMW.body = some { html := none, id := some "x", extsrc := some ['y'] }
      ∧ (defaultExtensionHandler c6cexEnv id [] c6cexDataMW).2 ≠ [] :=
  ⟨rfl, rfl, by simp [defaultExtensionHandler, c6cexEnv, c6cexDataMW, extBodyLookup]⟩

/-- C6 amended: a non-empty `body.html` wins; otherwise, when `html`
or `id` is a string, the element named by `body.id` is looked up in the
own then edited document, and a failed lookup logs an error and drops
the whole call without consulting `extsrc`; `body.extsrc` is used only
when neither `html` nor `id` is a string; and when `extsrc` is also
absent an error is logged but the extension is still emitted with an
empty body. -/
theorem c6_amended_body_resolution (env : ExtEnv) (shtml : List Char → List Char)
    (attrStr : List Char) (dm : ExtDataMW) :
    (∀ b h, dm.body = some b → b.html = some h → h ≠ [] →
        defaultExtensionHandler env shtml attrStr dm
          = (extOpenParts attrStr dm.name ++ '>' :: (shtml h ++ extCloseParts dm.name), []))
      ∧ (∀ b ht, dm.body = some b → (b.html = none ∨ b.html = some [])
          → (b.html.isSome ∨ b.id.isSome) → extBodyLookup env b.id = some ht →
          defaultExtensionHandler env shtml attrStr dm
            = (extOpenParts attrStr dm.name
                ++ '>' :: ((if ht ≠ [] then shtml ht else []) ++ extCloseParts dm.name), []))
      ∧ (∀ b, dm.body = some b → (b.html = none ∨ b.html = some [])
          → (b.html.isSome ∨ b.id.isSome) → extBodyLookup env b.id = none →
          defaultExtensionHandler env shtml attrStr dm = ([], ["ext-body-id-missing"]))
      ∧ (∀ b e, dm.body = some b → b.html = none → b.id = none → b.extsrc = some e →
          defaultExtensionHandler env shtml attrStr dm
            = (extOpenParts attrStr dm.name ++ '>' :: (e ++ extCloseParts dm.name), []))
      ∧ (∀ b, dm.body = some b → b.html = none → b.id = none → b.extsrc = none →
          defaultExtensionHandler env shtml attrStr dm
            = (extOpenParts attrStr dm.name ++ '>' :: extCloseParts dm.name,
                ["ext-src-unavailable"])) := by
  refine ⟨?_, ?_, ?_, ?_, ?_⟩
  · intro b h hb hh hne
    unfold defaultExtensionHandler
    rw [hb]
    simp [hh, hne]
  · intro b ht hb hhtml hsome hlook
    unfold defaultExtensionHandler
    rw [hb]
    rcases hhtml with hh | hh
    · simp only [hh, Option.isSome_none, Bool.false_or] at hsome ⊢
      rcases hsome with h | h
      · exact absurd h (by simp)
      · simp [h, hlook]
    · simp [hh, hlook]
  · intro b hb hhtml hsome hlook
    unfold defaultExtensionHandler
    rw [hb]
    rcases hhtml with hh | hh
    · simp only [hh, Option.isSome_none, Bool.false_or] at hsome ⊢
      rcases hsome with h | h
      · exact absurd h (by simp)
      · simp [h, hlook]
    · simp [hh, hlook]
  · intro b e hb hh hid hsrc
    unfold defaultExtensionHandler
    rw [hb]
    simp [hh, hid, hsrc]
  · intro b hb hh hid hsrc
    unfold defaultExtensionHandler
    rw [hb]
    simp [hh, hid, hsrc]

/-- Witness for C6: the amended theorem applied to a concrete extension
whose body carries only `extsrc`. -/
theorem c6_amended_body_resolution_witness :
    defaultExtensionHandler c6cexEnv id []
        { name := "ref", body := some { html := none, id := none, extsrc := some ['y'] } }
      = (extOpenParts [] "ref" ++ '>' :: (['y'] ++ extCloseParts "ref"), []) :=
  (c6_amended_body_resolution c6cexEnv id []
      { name := "ref", body := some { html := none, id := none, extsrc := some ['y'] } }
    ).2.2.2.1
    { html := none, id := none, extsrc := some ['y'] } ['y'] rfl rfl rfl rfl

end WTS

namespace WTS

/-! ## C3: `_serializeAttributes` (lines 230-353). -/

/-- `IGNORED_ATTRIBUTES` (lines 230-236). -/
def ignoredAttributes : List String :=
  ["data-parsoid", "data-ve-changed", "data-parsoid-changed",
   "data-parsoid-diff", "data-parsoid-serialize"]

/-- The parsoid-id test `/^mw[\w-]{2,}$/` (line 262). -/
def mwIdMatch (l : List Char) : Bool :=
  match l with
  | 'm' :: 'w' :: rest => rest.length ≥ 2 && rest.all (fun c => isWordChar c || c = '-')
  | _ => false

/-- The `about` pattern `/^#mwt\d+$/` (line 239). -/
def aboutMatch (l : List Char) : Bool :=
  match l with
  | '#' :: 'm' :: 'w' :: 't' :: rest => rest ≠ [] && rest.all isDigitChar
  | _ => false

/-- Replacing the (whole-string) `about` match with the empty string. -/
def aboutStrip (l : List Char) : List Char :=
  if aboutMatch l then [] else l

/-- Length of a `mw:[^\s]+` match at the head of the list. -/
def mwColonLen (l : List Char) : Option Nat :=
  match l with
  | 'm' :: 'w' :: ':' :: rest =>
    let n := (rest.takeWhile (fun c => !isSpaceChar c)).length
    if n = 0 then none else some (3 + n)
  | _ => none

/-- Scan for `\s`-preceded `mw:\S+` matches of the global `typeof`
pattern `/(^|\s)mw:[^\s]+/g` (line 240) and remove them (the leading
whitespace is part of the match). -/
def typeofStripGo (l : List Char) : List Char :=
  match l with
  | [] => []
  | c :: rest =>
    if isSpaceChar c then
      match h : mwColonLen rest with
      | some n =>
        have : rest.length - n < rest.length + 1 := by
          have := List.length_drop n rest
          omega
        typeofStripGo (rest.drop n)
      | none => c :: typeofStripGo rest
    else c :: typeofStripGo rest
  termination_by l.length
  decreasing_by
    all_goals (simp only [List.length_cons, List.length_drop]; omega)

/-- `kv.v.replace(/(^|\s)mw:[^\s]+/g, '')`: an anchored match at the
start, then `\s`-preceded matches. -/
def typeofStrip (l : List Char) : List Char :=
  match mwColonLen l with
  | some n => typeofStripGo (l.drop n)
  | none => typeofStripGo l

/-- Whether `/(^|\s)mw:[^\s]+/` matches anywhere in the list. -/
def typeofTestGo (l : List Char) : Bool :=
  match l with
  | [] => false
  | c :: rest => (isSpaceChar c && (mwColonLen rest).isSome) || typeofTestGo rest

/-- `kv.v.match(/(^|\s)mw:[^\s]+/g)` is non-null. -/
def typeofTest (l : List Char) : Bool :=
  (mwColonLen l).isSome || typeofTestGo l

/-- `value.replace(/"/g, '&quot;')` (lines 270, 309, 342). -/
def escQuot : List Char → List Char
  | [] => []
  | c :: r => (if c = '\"' then ['&', 'q', 'u', 'o', 't', ';'] else [c]) ++ escQuot r

/-- Strip a leading case-insensitive data-x- from the key (line 303). -/
def stripDataX (l : List Char) : List Char :=
  match l with
  | d :: a :: t :: a2 :: h :: x :: h2 :: rest =>
    if d.toLower = 'd' && a.toLower = 'a' && t.toLower = 't' && a2.toLower = 'a'
        && h = '-' && x.toLower = 'x' && h2 = '-' then rest
    else l
  | _ => l

/-- `token.getAttributeShadowInfo(k)` result (external token method):
the shadowed value with its `modified`/`fromsrc` provenance flags. -/
structure ShadowInfo where
  value : List Char
  modified : Bool
  fromsrc : Bool
  deriving Repr, DecidableEq

/-- One token attribute (`kv` of the reduce loop). -/
structure AttrKV where
  k : String
  v : List Char
  deriving Repr, DecidableEq

/-- One `data-mw.attribs` entry: the key text plus optional
template-generated HTML for the key and the value. -/
structure MwTplAttr where
  ktxt : String
  khtml : Option (List Char)
  vhtml : Option (List Char)

/-- The element bits `_serializeAttributes` reads off the DOM node:
whether `node.getAttribute('data-parsoid')` is present (line 263), and
`DU.getDataMw(node).attribs` (lines 104, 122). -/
structure AttrNode where
  hasDataParsoidAttr : Bool
  dataMwAttribs : List MwTplAttr

/-- The token: its attribute list, its shadow-info method, and the
`dataAttribs.a`/`dataAttribs.sa` snapshots (lines 333-335). -/
structure AttrToken where
  attribs : List AttrKV
  shadow : String → ShadowInfo
  dataA : Option (List String)
  dataSa : Option (String → Option (List Char))

/-- External helpers: `Util.escapeEntities` and the nested
`serializeHTML` calls that resolve template-generated attribute keys
and values (lines 103-142). -/
structure AttrEnv where
  escapeEntities : List Char → List Char
  serializeKeyHTML : List Char → List Char
  serializeValHTML : List Char → List Char

/-- `getAttributeKey` (lines 103-119): serialize the key's generator
HTML when `data-mw.attribs` carries one, else the key itself.  (The
model treats the string-form `a[0] === key` entries of
`getAttributeValue` uniformly through `ktxt`.) -/
def getAttributeKey (env : AttrEnv) (node : AttrNode) (k : String) : List Char :=
  match node.dataMwAttribs.find? (fun a => a.ktxt == k && a.khtml.isSome) with
  | some a => env.serializeKeyHTML (a.khtml.getD [])
  | none => k.data

/-- `getAttributeValue` (lines 121-142). -/
def getAttributeValue (env : AttrEnv) (node : AttrNode) (k : String)
    (v : List Char) : List Char :=
  match node.dataMwAttribs.find? (fun a => a.ktxt == k && a.vhtml.isSome) with
  | some a => env.serializeValHTML (a.vhtml.getD [])
  | none => v

/-- One entry pushed onto `out`, keeping the four push shapes of the
source distinct; `renderAttrOut` rebuilds the exact pushed string. -/
inductive AttrOut where
  | quoted (k : List Char) (v : List Char)
  | bare (k : List Char)
  | emptyVal (k : List Char)
  | plain (v : List Char)
  deriving Repr, DecidableEq

/-- The string pushed for an entry: `k + '="' + v + '"'` (lines 270,
285, 309, 342), bare `kk` (line 312), `kk + '=""'` (line 314), or the
raw `kv.v` (line 320). -/
def renderAttrOut : AttrOut → List Char
  | .quoted k v => k ++ '=' :: '\"' :: (v ++ ['\"'])
  | .bare k => k
  | .emptyVal k => k ++ ['=', '\"', '\"']
  | .plain v => v

/-- `out.join(' ')` (line 351). -/
def renderAttrOuts : List AttrOut → List Char
  | [] => []
  | [x] => renderAttrOut x
  | x :: xs => renderAttrOut x ++ ' ' :: renderAttrOuts xs

/-- The body of the per-attribute reduce loop (lines 247-324),
returning pushed entries and logged warnings. -/
def serializeOneAttr (env : AttrEnv) (node : AttrNode) (tok : AttrToken)
    (kv : AttrKV) : List AttrOut × List String :=
  if ignoredAttributes.contains kv.k || kv.k = "data-mw" then ([], [])
  else if kv.k = "id" && mwIdMatch kv.v then
    if !node.hasDataParsoidAttr then
      ([], ["warning-parsoid-id-without-data-parsoid"])
    else
      let vInfo := tok.shadow kv.k
      if !vInfo.modified && vInfo.fromsrc then
        ([.quoted "id".data (escQuot vInfo.value)], [])
      else ([], [])
  else if kv.k = "about" && aboutMatch kv.v then
    let v := aboutStrip kv.v
    (if v ≠ [] then [.quoted "about".data v] else [], [])
  else if kv.k = "typeof" && typeofTest kv.v then
    let v := typeofStrip kv.v
    (if v ≠ [] then [.quoted "typeof".data v] else [], [])
  else if kv.k.length > 0 then
    let vInfo := tok.shadow kv.k
    let kk := stripDataX (getAttributeKey env node kv.k)
    let vv := getAttributeValue env node kv.k vInfo.value
    if vv.length > 0 then
      let vv2 := if !vInfo.fromsrc then env.escapeEntities vv else vv
      ([.quoted kk (escQuot vv2)], [])
    else if kk.contains '{' || kk.contains '<' then ([.bare kk], [])
    else ([.emptyVal kk], [])
  else if kv.v.length > 0 then ([.plain kv.v], [])
  else ([], [])

/-- The sanitized-attribute restoration pass (lines 333-349): keys of
`dataAttribs.a` absent from the live attribute list are re-pushed with
their `dataAttribs.sa` value. -/
def restoreSanitizedAttrs (tok : AttrToken) : List AttrOut :=
  match tok.dataA, tok.dataSa with
  | some aKeys, some sa =>
    aKeys.filterMap (fun k =>
      if (tok.attribs.find? (fun kv => kv.k == k)).isSome then none
      else match sa k with
        | some v => if v ≠ [] then some (.quoted k.data (escQuot v)) else some (.bare k.data)
        | none => some (.bare k.data))
  | _, _ => []

/-- `_serializeAttributes` (lines 243-353): the sequential reduce over
the attribute list, then the restoration pass. -/
def serializeAttributes (env : AttrEnv) (node : AttrNode) (tok : AttrToken) :
    List AttrOut × List String :=
  let loop := tok.attribs.foldl
    (fun acc kv =>
      let r := serializeOneAttr env node tok kv
      (acc.1 ++ r.1, acc.2 ++ r.2)) ([], [])
  (loop.1 ++ restoreSanitizedAttrs tok, loop.2)

/-- A concrete environment with identity oracles. -/
def c3cexEnv : AttrEnv :=
  { escapeEntities := id, serializeKeyHTML := id, serializeValHTML := id }

/-- A concrete node. -/
def c3cexNode : AttrNode :=
  { hasDataParsoidAttr := true, dataMwAttribs := [] }

/-- A concrete token whose sanitized-away snapshot records a
`data-parsoid` attribute that is absent from the live list. -/
def c3cexTok : AttrToken :=
  { attribs := []
    shadow := fun _ => { value := [], modified := true, fromsrc := false }
    dataA := some ["data-parsoid"]
    dataSa := some (fun k => if k == "data-parsoid" then some ['x'] else none) }

/-- C3 counterexample: the restoration pass re-emits a `data-parsoid`
attribute (an ignore-set key), so the claim that no ignore-set key ever
appears in the serialized attribute string is false. -/
theorem c3_counterexample :
    (serializeAttributes c3cexEnv c3cexNode c3cexTok).1
        = [AttrOut.quoted "data-parsoid".data ['x']]
      ∧ "data-parsoid" ∈ ignoredAttributes
      ∧ renderAttrOuts (serializeAttributes c3cexEnv c3cexNode c3cexTok).1
        = "data-parsoid=\x22x\x22".data := by
  refine ⟨rfl, by simp [ignoredAttributes], rfl⟩

/-- C3 amended: in the per-attribute loop, attributes whose key is in
the ignore set (or `data-mw`) produce no output; a parser-generated
`id` (matching `^mw[\w-]{2,}$`) produces output only when the shadow
info is unmodified and from source, is dropped with a logged warning
when the node has no `data-parsoid` attribute, and is dropped silently
when provenance does not confirm it.  (The sanitized-attribute
restoration pass of lines 333-349 is not filtered and can re-emit
ignore-set keys, as the counterexample shows.) -/
theorem c3_amended_attribute_filter (env : AttrEnv) (node : AttrNode)
    (tok : AttrToken) (kv : AttrKV) :
    ((ignoredAttributes.contains kv.k || kv.k = "data-mw") = true →
        serializeOneAttr env node tok kv = ([], []))
      ∧ (kv.k = "id" → mwIdMatch kv.v = true →
          (node.hasDataParsoidAttr = false →
              serializeOneAttr env node tok kv
                = ([], ["warning-parsoid-id-without-data-parsoid"]))
            ∧ (node.hasDataParsoidAttr = true →
                ((tok.shadow "id").modified = false → (tok.shadow "id").fromsrc = true →
                    serializeOneAttr env node tok kv
                      = ([.quoted "id".data (escQuot (tok.shadow "id").value)], []))
                  ∧ (((tok.shadow "id").modified = true ∨ (tok.shadow "id").fromsrc = false) →
                      serializeOneAttr env node tok kv = ([], [])))) := by
  obtain ⟨kk, vv⟩ := kv
  constructor
  · intro h
    unfold serializeOneAttr
    dsimp only at h ⊢
    rw [if_pos h]
  · intro hk hmw
    dsimp only at hk hmw ⊢
    subst hk
    unfold serializeOneAttr
    dsimp only
    have hign : ("id" : String) ∉ ignoredAttributes := by decide
    have hdm : ("id" : String) ≠ "data-mw" := by decide
    constructor
    · intro hnd
      simp [hmw, hnd, hign, hdm]
    · intro hnd
      constructor
      · intro hmod hsrc
        simp [hmw, hnd, hmod, hsrc, hign, hdm]
      · intro hbad
        rcases hbad with hb | hb <;> simp [hmw, hnd, hb, hign, hdm]

/-- Witness for C3: the amended theorem applied to a concrete
`data-parsoid` attribute, which the loop drops. -/
theorem c3_amended_attribute_filter_witness :
    serializeOneAttr c3cexEnv c3cexNode c3cexTok { k := "data-parsoid", v := ['x'] }
      = ([], []) :=
  (c3_amended_attribute_filter c3cexEnv c3cexNode c3cexTok
      { k := "data-parsoid", v := ['x'] }).1 (by decide)

end WTS

namespace WTS

/-! ## C4/C7: the post-pass rewrites.  First the quote-adjacent-nowiki
pass `_stripUnnecessaryQuoteNowikis` (lines 1066-1174).  The split
pattern of line 1085 is embedded as a token parser returning the
matched separator token and the remaining input. -/

/-- Consume up to and including the first `>` (the lazy `[^>]*?\/?>`
tail of the open-tag alternative). -/
def splitAtGt (l : List Char) : Option (List Char × List Char) :=
  match l with
  | [] => none
  | c :: rest =>
    if c = '>' then some ([c], rest)
    else (splitAtGt rest).map (fun pr => (c :: pr.1, pr.2))

theorem splitAtGt_append {l seg rest : List Char}
    (h : splitAtGt l = some (seg, rest)) : seg ++ rest = l ∧ seg ≠ [] := by
  induction l generalizing seg rest with
  | nil => simp [splitAtGt] at h
  | cons c cs ih =>
    simp only [splitAtGt] at h
    split at h
    · rename_i hc
      simp only [Option.some.injEq, Prod.mk.injEq] at h
      obtain ⟨h1, h2⟩ := h
      subst h1; subst h2
      exact ⟨rfl, by simp⟩
    · cases hs : splitAtGt cs with
      | none => rw [hs] at h; simp at h
      | some pr =>
        rw [hs] at h
        simp only [Option.map_some', Option.some.injEq, Prod.mk.injEq] at h
        obtain ⟨h1, h2⟩ := h
        obtain ⟨ha, -⟩ := ih (show splitAtGt cs = some (pr.1, pr.2) by rw [hs])
        subst h2
        rw [← h1]
        exact ⟨by simpa using ha, by simp⟩

/-- A match of the JS open-tag alternative
`<\w+(?:\s+[^>]*?|\s*?)\/?>`: `<name>`, `<name/>`, or — when
whitespace follows the name — everything up to the first `>`.
Returns the token and the rest of the input. -/
def parseOpenTag (l : List Char) : Option (List Char × List Char) :=
  match l with
  | '<' :: rest =>
    let name := rest.takeWhile isWordChar
    if name.isEmpty then none
    else
      match rest.dropWhile isWordChar with
      | '>' :: tail => some ('<' :: (name ++ ['>']), tail)
      | '/' :: '>' :: tail => some ('<' :: (name ++ ['/', '>']), tail)
      | c :: more =>
        if isSpaceChar c then
          match splitAtGt (c :: more) with
          | some (seg, tail) => some ('<' :: (name ++ seg), tail)
          | none => none
        else none
      | [] => none
  | _ => none

/-- A match of the close-tag alternative `<\/\w+\s*>`. -/
def parseCloseTag (l : List Char) : Option (List Char × List Char) :=
  match l with
  | '<' :: '/' :: rest =>
    let name := rest.takeWhile isWordChar
    if name.isEmpty then none
    else
      let after := rest.dropWhile isWordChar
      match after.dropWhile isSpaceChar with
      | '>' :: tail =>
        some ('<' :: '/' :: (name ++ (after.takeWhile isSpaceChar ++ ['>'])), tail)
      | _ => none
  | _ => none

theorem parseOpenTag_append {l tok rest : List Char}
    (h : parseOpenTag l = some (tok, rest)) : tok ++ rest = l ∧ tok ≠ [] := by
  unfold parseOpenTag at h
  split at h
  case h_2 => simp at h
  case h_1 l0 r0 =>
    dsimp only at h
    split at h
    · simp at h
    · rename_i hname
      have hsplit := List.takeWhile_append_dropWhile isWordChar r0
      split at h
      · rename_i tail heq
        simp only [Option.some.injEq, Prod.mk.injEq] at h
        obtain ⟨h1, h2⟩ := h
        subst h1; subst h2
        refine ⟨?_, by simp⟩
        simp only [List.cons_append, List.cons.injEq, true_and, List.append_assoc,
          List.nil_append]
        rw [← heq]
        exact hsplit
      · rename_i tail heq
        simp only [Option.some.injEq, Prod.mk.injEq] at h
        obtain ⟨h1, h2⟩ := h
        subst h1; subst h2
        refine ⟨?_, by simp⟩
        simp only [List.cons_append, List.cons.injEq, true_and, List.append_assoc,
          List.nil_append]
        rw [← heq]
        exact hsplit
      · rename_i c more heq
        split at h
        · split at h
          · rename_i seg tail hsg
            simp only [Option.some.injEq, Prod.mk.injEq] at h
            obtain ⟨h1, h2⟩ := h
            subst h1; subst h2
            obtain ⟨hseg, -⟩ := splitAtGt_append hsg
            refine ⟨?_, by simp⟩
            simp only [List.cons_append, List.cons.injEq, true_and, List.append_assoc]
            rw [hseg, ← heq]
            exact hsplit
          · simp at h
        · simp at h
      · simp at h

theorem parseCloseTag_append {l tok rest : List Char}
    (h : parseCloseTag l = some (tok, rest)) : tok ++ rest = l ∧ tok ≠ [] := by
  unfold parseCloseTag at h
  split at h
  case h_2 => simp at h
  case h_1 l0 r0 =>
    dsimp only at h
    split at h
    · simp at h
    · rename_i hname
      have hsplit := List.takeWhile_append_dropWhile isWordChar r0
      have hsplit2 := List.takeWhile_append_dropWhile isSpaceChar (r0.dropWhile isWordChar)
      split at h
      · rename_i tail heq
        simp only [Option.some.injEq, Prod.mk.injEq] at h
        obtain ⟨h1, h2⟩ := h
        subst h1; subst h2
        refine ⟨?_, by simp⟩
        simp only [List.cons_append, List.cons.injEq, true_and, List.append_assoc,
          List.nil_append]
        rw [← heq, hsplit2]
        exact hsplit
      · simp at h

/-- A match of the whole split pattern of line 1085, tried in JS
alternation order (`'''''`, `'''`, `''`, `[[`, `]]`, `{{`, `}}`, open
tag, close tag). -/
def quoteSepSplit (l : List Char) : Option (List Char × List Char) :=
  match l with
  | '\'' :: '\'' :: '\'' :: '\'' :: '\'' :: rest =>
    some (['\'', '\'', '\'', '\'', '\''], rest)
  | '\'' :: '\'' :: '\'' :: rest => some (['\'', '\'', '\''], rest)
  | '\'' :: '\'' :: rest => some (['\'', '\''], rest)
  | '[' :: '[' :: rest => some (['[', '['], rest)
  | ']' :: ']' :: rest => some ([']', ']'], rest)
  | '{' :: '{' :: rest => some (['{', '{'], rest)
  | '}' :: '}' :: rest => some (['}', '}'], rest)
  | _ =>
    match parseOpenTag l with
    | some r => some r
    | none => parseCloseTag l

theorem quoteSepSplit_append {l tok rest : List Char}
    (h : quoteSepSplit l = some (tok, rest)) : tok ++ rest = l ∧ tok ≠ [] := by
  unfold quoteSepSplit at h
  split at h
  all_goals try
    (simp only [Option.some.injEq, Prod.mk.injEq] at h
     obtain ⟨h1, h2⟩ := h
     subst h1; subst h2
     exact ⟨rfl, by simp⟩)
  split at h
  · rename_i r hr
    simp only [Option.some.injEq] at h
    subst h
    exact parseOpenTag_append hr
  · exact parseCloseTag_append h

theorem quoteSepSplit_shorter {l tok rest : List Char}
    (h : quoteSepSplit l = some (tok, rest)) : rest.length < l.length := by
  obtain ⟨happ, hne⟩ := quoteSepSplit_append h
  have hsum : tok.length + rest.length = l.length := by
    rw [← happ]; simp
  have hpos : 0 < tok.length := List.length_pos.mpr hne
  omega

/-- Concatenate the split pieces back together (`p.join('')`,
line 1169). -/
def joinAll : List (List Char) → List Char
  | [] => []
  | x :: xs => x ++ joinAll xs

/-- The split of line 1085 with captured separators: pieces at even
positions are plain text, odd positions are separator tokens. -/
def splitQuoteToksGo (acc : List Char) (l : List Char) : List (List Char) :=
  match h : quoteSepSplit l with
  | some (tok, rest) => acc.reverse :: tok :: splitQuoteToksGo [] rest
  | none =>
    match l with
    | [] => [acc.reverse]
    | c :: cs => splitQuoteToksGo (c :: acc) cs
  termination_by l.length
  decreasing_by
    · exact quoteSepSplit_shorter h
    · simp

/-- `line.split(...)` of line 1085. -/
def splitQuoteToks (l : List Char) : List (List Char) := splitQuoteToksGo [] l

theorem splitQuoteToksGo_joinAll :
    ∀ (n : Nat) (l : List Char), l.length ≤ n → ∀ acc,
      joinAll (splitQuoteToksGo acc l) = acc.reverse ++ l := by
  intro n
  induction n with
  | zero =>
    intro l hl acc
    have hnil : l = [] := List.length_eq_zero.mp (Nat.le_zero.mp hl)
    subst hnil
    unfold splitQuoteToksGo
    simp [quoteSepSplit, parseOpenTag, parseCloseTag, joinAll]
  | succ n ih =>
    intro l hl acc
    unfold splitQuoteToksGo
    split
    · rename_i tok rest heq
      obtain ⟨happ, -⟩ := quoteSepSplit_append heq
      have hlt : rest.length ≤ n := by
        have := quoteSepSplit_shorter heq
        omega
      simp only [joinAll]
      rw [ih rest hlt []]
      simp [← happ]
    · split
      · simp [joinAll]
      · rename_i c cs hnone
        have hlt : cs.length ≤ n := by
          simp only [List.length_cons] at hl
          omega
        rw [ih cs hlt (c :: acc)]
        simp

/-- Splitting and rejoining a line is the identity. -/
theorem splitQuoteToks_joinAll (l : List Char) :
    joinAll (splitQuoteToks l) = l := by
  simpa [splitQuoteToks] using splitQuoteToksGo_joinAll l.length l (Nat.le_refl _) []

end WTS

namespace WTS

/-- The group captured by `/^<(\/?\w+)/` on a token, or the token
itself when the pattern fails (line 1098). -/
def sepTagBase (tok : List Char) : List Char :=
  match tok with
  | '<' :: c1 :: r2 =>
    if c1 = '/' then
      let name := r2.takeWhile isWordChar
      if name.isEmpty then tok else '/' :: name
    else
      let name := (c1 :: r2).takeWhile isWordChar
      if name.isEmpty then tok else name
  | _ => tok

/-- The tag-name extraction of lines 1098-1100:
`(/^<(\/?\w+)/.exec(p[j]) || '')[1] || p[j]`, with `'/'` appended when
the token ends in `/>`.  Returns the tag and the `selfClose` flag. -/
def sepTagOf (tok : List Char) : List Char × Bool :=
  let sc : Bool := tok.reverse.take 2 = ['>', '/']
  (if sc then sepTagBase tok ++ ['/'] else sepTagBase tok, sc)

/-- The walker state of lines 1090-1095: the bracket/quote/tag stack
(most recent element first, so `lastItem` is the head), the number of
quote tokens on the stack, the overwritten `nowikiIndex` slot, and the
`<nowiki>`/`<ref>` section flags. -/
structure QuoteWalkState where
  stack : List (List Char)
  quotesOnStack : Nat
  nowikiIndex : Option Nat
  inNowiki : Bool
  inRef : Bool
  deriving Repr, DecidableEq

/-- The strippability test of lines 1129-1142 for a `<nowiki/>` token at
(odd) position `j`: the previous piece ends in a single trailing quote,
and either no quote is open, or exactly one is and the `<nowiki/>` sits
directly before the closing quote token that matches the top of the
stack. -/
def nowikiStrippable (p : List (List Char)) (j : Nat) (st : QuoteWalkState) : Bool :=
  let pj1 := p.getD (j - 1) []
  let pj2 := if j < 2 then [] else p.getD (j - 2) []
  (pj1.reverse.take 1 = ['\''])
    && !(pj1 = ['\''] && pj2.reverse.take 2 = ['\'', '\''])
    && (st.quotesOnStack = 0
      || (st.quotesOnStack = 1
        && j + 2 < p.length
        && p.getD (j + 1) [] = ([] : List Char)
        && (p.getD (j + 2) []).take 1 = ['\'']
        && (match st.stack with
            | top :: _ => p.getD (j + 2) [] = top
            | [] => false)))

/-- One trip of the `for (j = 1; j < n; j += 2)` loop body
(lines 1096-1159): either the pairing check fails (`return line`) or
the state advances. -/
inductive QuoteStepResult where
  | fail
  | cont (st : QuoteWalkState)
  deriving Repr, DecidableEq

/-- `stack.pop()` against a fixed expected opener (lines 1115-1118):
fail on a mismatch or (since the JS pop yields `undefined`) on an empty
stack. -/
def popExpect (st : QuoteWalkState) (expected : List Char) : QuoteStepResult :=
  match st.stack with
  | top :: rest => if top = expected then .cont { st with stack := rest } else .fail
  | [] => .fail

/-- `stack.pop()` against a closing html tag (lines 1119-1124): the pop
must equal `'/' + opentag`; a pop from the empty JS stack yields
`undefined`, so only the literal tag `/undefined` would "match". -/
def popCloseTag (st : QuoteWalkState) (tag : List Char) : QuoteStepResult :=
  match st.stack with
  | top :: rest => if tag = '/' :: top then .cont { st with stack := rest } else .fail
  | [] =>
    if tag = ['/', 'u', 'n', 'd', 'e', 'f', 'i', 'n', 'e', 'd'] then .cont st else .fail

/-- `lastItem(stack) === tag` (line 1152). -/
def topEq (st : QuoteWalkState) (tag : List Char) : Bool :=
  match st.stack with
  | top :: _ => top = tag
  | [] => false

/-- The loop body of lines 1096-1159 at position `j`. -/
def quoteWalkStep (p : List (List Char)) (j : Nat) (st : QuoteWalkState) :
    QuoteStepResult :=
  let ts := sepTagOf (p.getD j [])
  let tag := ts.1
  let selfClose := ts.2
  if tag = ['r', 'e', 'f'] then .cont { st with inRef := true }
  else if st.inRef then
    if tag = ['/', 'r', 'e', 'f'] then .cont { st with inRef := false } else .cont st
  else if tag = ['n', 'o', 'w', 'i', 'k', 'i'] then .cont { st with inNowiki := true }
  else if st.inNowiki then
    if tag = ['/', 'n', 'o', 'w', 'i', 'k', 'i'] then .cont { st with inNowiki := false }
    else .cont st
  else if tag = [']', ']'] then popExpect st ['[', '[']
  else if tag = ['}', '}'] then popExpect st ['{', '{']
  else if tag.take 1 = ['/'] then popCloseTag st tag
  else if tag = ['n', 'o', 'w', 'i', 'k', 'i', '/'] then
    if nowikiStrippable p j st then .cont { st with nowikiIndex := some j } else .cont st
  else if selfClose || tag = ['b', 'r'] then .cont st
  else if tag.take 1 = ['\''] && topEq st tag then
    .cont { st with stack := st.stack.tail, quotesOnStack := st.quotesOnStack - 1 }
  else
    .cont { st with
            stack := tag :: st.stack
            quotesOnStack :=
              if tag.take 1 = ['\''] then st.quotesOnStack + 1 else st.quotesOnStack }

/-- The whole loop from position `j`, then the end-of-line checks of
lines 1161-1172: `none` when pairing fails (mismatched pop or leftover
stack), otherwise the final `nowikiIndex`. -/
def quoteWalkFrom (p : List (List Char)) (j : Nat) (st : QuoteWalkState) :
    Option (Option Nat) :=
  if hj : j < p.length then
    match quoteWalkStep p j st with
    | .fail => none
    | .cont st2 => quoteWalkFrom p (j + 2) st2
  else if st.stack = [] then some st.nowikiIndex else none
  termination_by p.length - j
  decreasing_by
    omega

/-- `/<nowiki\s*\/>/` at the head of the list. -/
def nowikiSelfCloseAt (l : List Char) : Bool :=
  match l with
  | '<' :: 'n' :: 'o' :: 'w' :: 'i' :: 'k' :: 'i' :: rest =>
    match rest.dropWhile isSpaceChar with
    | '/' :: '>' :: _ => true
    | _ => false
  | _ => false

/-- `/<nowiki\s*\/>/.test(line)` (line 1070). -/
def containsNowikiSelfClose : List Char → Bool
  | [] => false
  | c :: rest => nowikiSelfCloseAt (c :: rest) || containsNowikiSelfClose rest

/-- The fresh walker state of lines 1087-1095. -/
def initQuoteWalkState : QuoteWalkState :=
  { stack := [], quotesOnStack := 0, nowikiIndex := none, inNowiki := false, inRef := false }

/-- The per-line body of `_stripUnnecessaryQuoteNowikis`
(lines 1067-1172): skip lines without both a `<nowiki/>` and a quote;
otherwise split, walk, and blank the chosen `<nowiki/>` piece. -/
def stripQuoteLine (line : List Char) : List Char :=
  if !(containsNowikiSelfClose line && line.contains '\'') then line
  else
    let p := splitQuoteToks line
    match quoteWalkFrom p 1 initQuoteWalkState with
    | none => line
    | some none => line
    | some (some idx) => joinAll (p.set idx [])

/-- `_stripUnnecessaryQuoteNowikis` (lines 1066-1174): map the per-line
strip over the lines of the buffer. -/
def stripQuoteNowikis (out : List Char) : List Char :=
  joinLines ((splitLines out).map stripQuoteLine)

end WTS

namespace WTS

/-- A walk step can only move `nowikiIndex` to the current position,
and only on a `<nowiki/>` tag (lines 1125-1145); every other branch
leaves the slot alone. -/
theorem quoteWalkStep_nowikiIndex {p : List (List Char)} {j : Nat}
    {st st2 : QuoteWalkState} (h : quoteWalkStep p j st = .cont st2) :
    st2.nowikiIndex = st.nowikiIndex
      ∨ (st2.nowikiIndex = some j
          ∧ (sepTagOf (p.getD j [])).1 = ['n', 'o', 'w', 'i', 'k', 'i', '/']) := by
  have hpop : ∀ (s : QuoteWalkState) (e : List Char) (s2 : QuoteWalkState),
      popExpect s e = .cont s2 → s2.nowikiIndex = s.nowikiIndex := by
    intro s e s2 hp
    unfold popExpect at hp
    repeat' split at hp
    all_goals first
      | exact QuoteStepResult.noConfusion hp
      | (cases hp; rfl)
  have hpop2 : ∀ (s : QuoteWalkState) (t : List Char) (s2 : QuoteWalkState),
      popCloseTag s t = .cont s2 → s2.nowikiIndex = s.nowikiIndex := by
    intro s t s2 hp
    unfold popCloseTag at hp
    repeat' split at hp
    all_goals first
      | exact QuoteStepResult.noConfusion hp
      | (cases hp; rfl)
  unfold quoteWalkStep at h
  simp only [] at h
  generalize htg : (sepTagOf (p.getD j [])).1 = tg at h ⊢
  generalize hsb : (sepTagOf (p.getD j [])).2 = sb at h
  generalize hns : nowikiStrippable p j st = ns at h
  by_cases h1 : tg = ['r', 'e', 'f']
  · rw [if_pos h1] at h; cases h; left; rfl
  · rw [if_neg h1] at h
    by_cases h2 : st.inRef = true
    · rw [if_pos h2] at h
      by_cases h2a : tg = ['/', 'r', 'e', 'f']
      · rw [if_pos h2a] at h; cases h; left; rfl
      · rw [if_neg h2a] at h; cases h; left; rfl
    · rw [if_neg h2] at h
      by_cases h3 : tg = ['n', 'o', 'w', 'i', 'k', 'i']
      · rw [if_pos h3] at h; cases h; left; rfl
      · rw [if_neg h3] at h
        by_cases h4 : st.inNowiki = true
        · rw [if_pos h4] at h
          by_cases h4a : tg = ['/', 'n', 'o', 'w', 'i', 'k', 'i']
          · rw [if_pos h4a] at h; cases h; left; rfl
          · rw [if_neg h4a] at h; cases h; left; rfl
        · rw [if_neg h4] at h
          by_cases h5 : tg = [']', ']']
          · rw [if_pos h5] at h; left; exact hpop _ _ _ h
          · rw [if_neg h5] at h
            by_cases h6 : tg = ['}', '}']
            · rw [if_pos h6] at h; left; exact hpop _ _ _ h
            · rw [if_neg h6] at h
              by_cases h7 : List.take 1 tg = ['/']
              · rw [if_pos h7] at h; left; exact hpop2 _ _ _ h
              · rw [if_neg h7] at h
                by_cases h8 : tg = ['n', 'o', 'w', 'i', 'k', 'i', '/']
                · rw [if_pos h8] at h
                  by_cases h8a : ns = true
                  · rw [if_pos h8a] at h; cases h; right; exact ⟨rfl, h8⟩
                  · rw [if_neg h8a] at h; cases h; left; rfl
                · rw [if_neg h8] at h
                  by_cases h9 : (sb || decide (tg = ['b', 'r'])) = true
                  · rw [if_pos h9] at h; cases h; left; rfl
                  · rw [if_neg h9] at h
                    by_cases h10 : (decide (List.take 1 tg = ['\'']) && topEq st tg) = true
                    · rw [if_pos h10] at h; cases h; left; rfl
                    · rw [if_neg h10] at h; cases h; left; rfl


/-- A successful walk returns either the `nowikiIndex` it started with
or an in-range position, of the parity the loop visits, whose token the
walk classified as `<nowiki/>`. -/
theorem quoteWalkFrom_result :
    ∀ (fuel : Nat) (p : List (List Char)) (j : Nat) (st : QuoteWalkState) (idx : Nat),
      p.length - j ≤ fuel →
      quoteWalkFrom p j st = some (some idx) →
      st.nowikiIndex = some idx
        ∨ (j ≤ idx ∧ idx < p.length ∧ idx % 2 = j % 2
            ∧ (sepTagOf (p.getD idx [])).1 = ['n', 'o', 'w', 'i', 'k', 'i', '/']) := by
  intro fuel
  induction fuel with
  | zero =>
    intro p j st idx hf h
    have hj : ¬(j < p.length) := by omega
    unfold quoteWalkFrom at h
    rw [dif_neg hj] at h
    split at h
    · left
      simpa using h
    · simp at h
  | succ n ih =>
    intro p j st idx hf h
    by_cases hj : j < p.length
    · unfold quoteWalkFrom at h
      rw [dif_pos hj] at h
      cases hstep : quoteWalkStep p j st with
      | fail => rw [hstep] at h; simp at h
      | cont st2 =>
        rw [hstep] at h
        have hrec := ih p (j + 2) st2 idx (by omega) h
        rcases hrec with hkeep | ⟨h1, h2, h3, h4⟩
        · rcases quoteWalkStep_nowikiIndex hstep with heq | ⟨hset, htag⟩
          · left; rw [← heq]; exact hkeep
          · right
            rw [hset] at hkeep
            have hji : j = idx := by injection hkeep
            subst hji
            exact ⟨Nat.le_refl _, hj, rfl, htag⟩
        · right
          exact ⟨by omega, h2, by omega, h4⟩
    · unfold quoteWalkFrom at h
      rw [dif_neg hj] at h
      split at h
      · left; simpa using h
      · simp at h

/-- Decomposing the rejoin of a piece list around one position: the
whole join, and the join with that piece blanked (`p[nowikiIndex] = ''`,
line 1168). -/
theorem joinAll_set_nil (p : List (List Char)) :
    ∀ i, i < p.length →
      joinAll p = joinAll (p.take i) ++ (p.getD i [] ++ joinAll (p.drop (i + 1)))
        ∧ joinAll (p.set i []) = joinAll (p.take i) ++ joinAll (p.drop (i + 1)) := by
  induction p with
  | nil => intro i hi; simp at hi
  | cons x xs ih =>
    intro i hi
    cases i with
    | zero => simp [joinAll]
    | succ k =>
      have hk : k < xs.length := by simpa using hi
      obtain ⟨h1, h2⟩ := ih k hk
      constructor
      · simp only [joinAll, List.take_succ_cons, List.getD_cons_succ, List.drop_succ_cons]
        rw [h1]
        simp [joinAll]
      · simp only [List.set_cons_succ, joinAll, List.take_succ_cons, List.drop_succ_cons]
        rw [h2]
        simp

/-- Every odd-position piece of the split is a separator token: the
first component of some `quoteSepSplit` match. -/
theorem splitQuoteToksGo_odd :
    ∀ (n : Nat) (l acc : List Char) (j : Nat),
      l.length ≤ n → j % 2 = 1 → j < (splitQuoteToksGo acc l).length →
      ∃ l2 tok rest, quoteSepSplit l2 = some (tok, rest)
        ∧ (splitQuoteToksGo acc l).getD j [] = tok := by
  intro n
  induction n with
  | zero =>
    intro l acc j hl hodd hj
    have hnil : l = [] := List.length_eq_zero.mp (Nat.le_zero.mp hl)
    subst hnil
    rw [show splitQuoteToksGo acc [] = [acc.reverse] from by
      unfold splitQuoteToksGo
      simp [quoteSepSplit, parseOpenTag, parseCloseTag]] at hj
    simp at hj
    omega
  | succ n ih =>
    intro l acc j hl hodd hj
    rw [splitQuoteToksGo] at hj ⊢
    split at hj
    · rename_i tok rest heq
      have hlt : rest.length ≤ n := by
        have := quoteSepSplit_shorter heq
        omega
      cases j with
      | zero => omega
      | succ j1 =>
        cases j1 with
        | zero => exact ⟨l, tok, rest, heq, rfl⟩
        | succ j2 =>
          simp only [List.length_cons] at hj
          have hj2 : j2 < (splitQuoteToksGo [] rest).length := by omega
          obtain ⟨l2, tok2, rest2, hq2, hv⟩ := ih rest [] j2 hlt (by omega) hj2
          exact ⟨l2, tok2, rest2, hq2, by simpa using hv⟩
    · split at hj
      · simp at hj
        omega
      · rename_i c cs hnone
        have hlt : cs.length ≤ n := by
          simp only [List.length_cons] at hl
          omega
        exact ih cs (c :: acc) j hlt hodd hj

end WTS

namespace WTS

theorem isWordChar_of_isSpaceChar {c : Char} (h : isSpaceChar c = true) :
    isWordChar c = false := by
  unfold isSpaceChar at h
  simp only [Bool.or_eq_true, decide_eq_true_eq] at h
  rcases h with ((((h | h) | h) | h) | h) | h <;> (subst h; decide)

theorem splitAtGt_head {l seg tail : List Char}
    (h : splitAtGt l = some (seg, tail)) : seg.head? = l.head? := by
  cases l with
  | nil => simp [splitAtGt] at h
  | cons c rest =>
    simp only [splitAtGt] at h
    split at h
    · simp only [Option.some.injEq, Prod.mk.injEq] at h
      rw [← h.1]
      rfl
    · cases hs : splitAtGt rest with
      | none => rw [hs] at h; simp at h
      | some pr =>
        rw [hs] at h
        simp only [Option.map_some', Option.some.injEq, Prod.mk.injEq] at h
        rw [← h.1]
        rfl

theorem takeWhile_append_of_head_neg {p : Char → Bool} :
    ∀ {a b : List Char}, (∀ x ∈ a, p x = true) →
      (∀ c t, b = c :: t → p c = false) →
      (a ++ b).takeWhile p = a := by
  intro a
  induction a with
  | nil =>
    intro b _ hb
    cases b with
    | nil => rfl
    | cons c t => simp [List.takeWhile_cons, hb c t rfl]
  | cons x xs ih =>
    intro b ha hb
    have hx : p x = true := ha x (by simp)
    simp only [List.cons_append, List.takeWhile_cons, hx, if_true]
    rw [ih (fun y hy => ha y (by simp [hy])) hb]

/-- The structure of an open-tag token: `<` then a non-empty word-char
name, then a tail whose first character is not a word character. -/
theorem parseOpenTag_struct {l tok rest : List Char}
    (h : parseOpenTag l = some (tok, rest)) :
    ∃ name tailpart, tok = '<' :: (name ++ tailpart)
      ∧ name ≠ [] ∧ (∀ x ∈ name, isWordChar x = true)
      ∧ (∃ c t, tailpart = c :: t ∧ isWordChar c = false) := by
  unfold parseOpenTag at h
  split at h
  case h_2 => simp at h
  case h_1 l0 r0 =>
    dsimp only at h
    split at h
    · simp at h
    · rename_i hname
      have hne : r0.takeWhile isWordChar ≠ [] := fun hn => hname (by simp [hn])
      have hall : ∀ x ∈ r0.takeWhile isWordChar, isWordChar x = true :=
        List.all_eq_true.mp (List.all_takeWhile ..)
      split at h
      · rename_i tail heq
        simp only [Option.some.injEq, Prod.mk.injEq] at h
        exact ⟨_, ['>'], by rw [← h.1], hne, hall, '>', [], rfl, by decide⟩
      · rename_i tail heq
        simp only [Option.some.injEq, Prod.mk.injEq] at h
        exact ⟨_, ['/', '>'], by rw [← h.1], hne, hall, '/', ['>'], rfl, by decide⟩
      · rename_i x0 c more h1 h2 heq
        split at h
        · rename_i hsp
          split at h
          · rename_i seg tail hsg
            simp only [Option.some.injEq, Prod.mk.injEq] at h
            have hhead : seg.head? = some c := by
              rw [splitAtGt_head hsg]
              rfl
            cases seg with
            | nil => simp at hhead
            | cons s0 st =>
              simp only [List.head?_cons, Option.some.injEq] at hhead
              subst hhead
              exact ⟨_, s0 :: st, by rw [← h.1], hne, hall, s0, st, rfl,
                isWordChar_of_isSpaceChar hsp⟩
          · simp at h
        · simp at h
      · simp at h

/-- The structure of a close-tag token: it starts with `</`. -/
theorem parseCloseTag_struct {l tok rest : List Char}
    (h : parseCloseTag l = some (tok, rest)) :
    ∃ t, tok = '<' :: '/' :: t := by
  unfold parseCloseTag at h
  split at h
  case h_2 => simp at h
  case h_1 l0 r0 =>
    dsimp only at h
    split at h
    · simp at h
    · split at h
      · simp only [Option.some.injEq, Prod.mk.injEq] at h
        exact ⟨_, by rw [← h.1]⟩
      · simp at h

/-- Boolean list-prefix check, mirroring `String.prototype.startsWith`. -/
def startsWith : List Char → List Char → Bool
  | [], _ => true
  | _ :: _, [] => false
  | p :: ps, c :: cs => p = c && startsWith ps cs

theorem startsWith_append_self : ∀ (p b : List Char), startsWith p (p ++ b) = true := by
  intro p
  induction p with
  | nil => intro b; rfl
  | cons x xs ih => intro b; simp [startsWith, ih]

/-- `(sepTagOf tok).1` as a propositional if. -/
theorem sepTagOf_fst (tok : List Char) :
    (sepTagOf tok).1
      = if tok.reverse.take 2 = ['>', '/'] then sepTagBase tok ++ ['/']
        else sepTagBase tok := by
  by_cases hsc : tok.reverse.take 2 = ['>', '/'] <;> simp [sepTagOf, hsc]

/-- Computing `sepTagBase` on a well-formed open-tag token. -/
theorem sepTagBase_open {n0 : Char} {ns tail2 : List Char}
    (hw : isWordChar n0 = true)
    (hall : ∀ x ∈ ns, isWordChar x = true)
    (hhd : ∀ c t, tail2 = c :: t → isWordChar c = false) :
    sepTagBase ('<' :: ((n0 :: ns) ++ tail2)) = n0 :: ns := by
  have hslash : ¬(n0 = '/') := fun hh => by rw [hh] at hw; exact absurd hw (by decide)
  have hname : (n0 :: (ns ++ tail2)).takeWhile isWordChar = n0 :: ns := by
    rw [List.takeWhile_cons_of_pos hw]
    rw [takeWhile_append_of_head_neg hall hhd]
  show sepTagBase ('<' :: n0 :: (ns ++ tail2)) = n0 :: ns
  simp only [sepTagBase]
  rw [if_neg hslash]
  simp only [hname]
  simp

/-- If a separator token is classified as `<nowiki/>` by the tag
extraction, it really is one: it starts with `<nowiki` and ends in
`/>`. -/
theorem quoteSep_nowiki_tag_shape {l2 tok rest : List Char}
    (hq : quoteSepSplit l2 = some (tok, rest))
    (htag : (sepTagOf tok).1 = ['n', 'o', 'w', 'i', 'k', 'i', '/']) :
    startsWith ['<', 'n', 'o', 'w', 'i', 'k', 'i'] tok = true
      ∧ tok.reverse.take 2 = ['>', '/'] := by
  unfold quoteSepSplit at hq
  split at hq
  all_goals try
    (simp only [Option.some.injEq, Prod.mk.injEq] at hq
     obtain ⟨h1, -⟩ := hq
     rw [← h1] at htag
     exact absurd htag (by decide))
  split at hq
  · rename_i r hr
    simp only [Option.some.injEq] at hq
    subst hq
    obtain ⟨name, tailpart, htok, hne, hall, c, t, htp, hcw⟩ := parseOpenTag_struct hr
    cases name with
    | nil => exact absurd rfl hne
    | cons n0 ns =>
      subst htok
      rw [sepTagOf_fst] at htag
      have hw : isWordChar n0 = true := hall n0 (by simp)
      have hallns : ∀ x ∈ ns, isWordChar x = true := fun x hx => hall x (by simp [hx])
      have hhd : ∀ c2 t2, tailpart = c2 :: t2 → isWordChar c2 = false := by
        intro c2 t2 hc
        rw [htp] at hc
        injection hc with hc1 hc2
        rw [← hc1]
        exact hcw
      rw [sepTagBase_open hw hallns hhd] at htag
      by_cases hsc : ('<' :: ((n0 :: ns) ++ tailpart)).reverse.take 2 = ['>', '/']
      · rw [if_pos hsc] at htag
        have hnm : n0 :: ns = ['n', 'o', 'w', 'i', 'k', 'i'] := by
          have : (n0 :: ns) ++ ['/'] = ['n', 'o', 'w', 'i', 'k', 'i'] ++ ['/'] := by
            rw [htag]
            rfl
          exact List.append_cancel_right this
        refine ⟨?_, hsc⟩
        rw [show ('<' :: ((n0 :: ns) ++ tailpart))
            = '<' :: (['n', 'o', 'w', 'i', 'k', 'i'] ++ tailpart) from by rw [hnm]]
        exact startsWith_append_self ['<', 'n', 'o', 'w', 'i', 'k', 'i'] tailpart
      · rw [if_neg hsc] at htag
        injection htag with hh1 hh2
        rw [hh2] at hallns
        exact absurd (hallns '/' (by simp)) (by decide)
  · obtain ⟨t2, htok⟩ := parseCloseTag_struct hq
    subst htok
    rw [sepTagOf_fst] at htag
    exfalso
    have hbase : sepTagBase ('<' :: '/' :: t2) = '<' :: '/' :: t2
        ∨ ∃ nm, sepTagBase ('<' :: '/' :: t2) = '/' :: nm := by
      simp only [sepTagBase]
      rw [if_pos trivial]
      by_cases he : (t2.takeWhile isWordChar).isEmpty = true
      · left; rw [if_pos he]
      · right; exact ⟨_, by rw [if_neg he]⟩
    rcases hbase with hb | ⟨nm, hb⟩ <;> rw [hb] at htag <;>
      (by_cases hsc : ('<' :: '/' :: t2).reverse.take 2 = ['>', '/'])
    · rw [if_pos hsc] at htag
      simp at htag
    · rw [if_neg hsc] at htag
      simp at htag
    · rw [if_pos hsc] at htag
      simp at htag
    · rw [if_neg hsc] at htag
      simp at htag

end WTS

namespace WTS

/-- The condition under which the loop body at position `j` overwrites
`nowikiIndex` (lines 1125-1145): not inside a `<ref>` or `<nowiki>`
section, the token's tag is `nowiki/`, and the strippability test of
lines 1129-1142 passes. This is what makes a `<nowiki/>` token
strippable when the walker reaches it. -/
def setsNowikiAt (p : List (List Char)) (j : Nat) (st : QuoteWalkState) : Bool :=
  !st.inRef && !st.inNowiki
    && decide ((sepTagOf (p.getD j [])).1 = ['n', 'o', 'w', 'i', 'k', 'i', '/'])
    && nowikiStrippable p j st

/-- A step overwrites `nowikiIndex` with the current position exactly
when `setsNowikiAt` holds, and leaves it untouched otherwise. -/
theorem quoteWalkStep_sets {p : List (List Char)} {j : Nat}
    {st st2 : QuoteWalkState} (h : quoteWalkStep p j st = .cont st2) :
    (setsNowikiAt p j st = true ∧ st2.nowikiIndex = some j)
      ∨ (setsNowikiAt p j st = false ∧ st2.nowikiIndex = st.nowikiIndex) := by
  have hpop : ∀ (s : QuoteWalkState) (e : List Char) (s2 : QuoteWalkState),
      popExpect s e = .cont s2 → s2.nowikiIndex = s.nowikiIndex := by
    intro s e s2 hp
    unfold popExpect at hp
    repeat' split at hp
    all_goals first
      | exact QuoteStepResult.noConfusion hp
      | (cases hp; rfl)
  have hpop2 : ∀ (s : QuoteWalkState) (t : List Char) (s2 : QuoteWalkState),
      popCloseTag s t = .cont s2 → s2.nowikiIndex = s.nowikiIndex := by
    intro s t s2 hp
    unfold popCloseTag at hp
    repeat' split at hp
    all_goals first
      | exact QuoteStepResult.noConfusion hp
      | (cases hp; rfl)
  unfold quoteWalkStep at h
  simp only [] at h
  unfold setsNowikiAt
  generalize htg : (sepTagOf (p.getD j [])).1 = tg at h ⊢
  generalize hsb : (sepTagOf (p.getD j [])).2 = sb at h
  generalize hns : nowikiStrippable p j st = ns at h ⊢
  by_cases h1 : tg = ['r', 'e', 'f']
  · rw [if_pos h1] at h; cases h; right; exact ⟨by simp [h1], rfl⟩
  · rw [if_neg h1] at h
    by_cases h2 : st.inRef = true
    · rw [if_pos h2] at h
      by_cases h2a : tg = ['/', 'r', 'e', 'f']
      · rw [if_pos h2a] at h; cases h; right; exact ⟨by simp [h2], rfl⟩
      · rw [if_neg h2a] at h; cases h; right; exact ⟨by simp [h2], rfl⟩
    · have h2f : st.inRef = false := by revert h2; cases st.inRef <;> simp
      rw [if_neg h2] at h
      by_cases h3 : tg = ['n', 'o', 'w', 'i', 'k', 'i']
      · rw [if_pos h3] at h; cases h; right; exact ⟨by simp [h3], rfl⟩
      · rw [if_neg h3] at h
        by_cases h4 : st.inNowiki = true
        · rw [if_pos h4] at h
          by_cases h4a : tg = ['/', 'n', 'o', 'w', 'i', 'k', 'i']
          · rw [if_pos h4a] at h; cases h; right; exact ⟨by simp [h4], rfl⟩
          · rw [if_neg h4a] at h; cases h; right; exact ⟨by simp [h4], rfl⟩
        · have h4f : st.inNowiki = false := by revert h4; cases st.inNowiki <;> simp
          rw [if_neg h4] at h
          by_cases h5 : tg = [']', ']']
          · rw [if_pos h5] at h; right; exact ⟨by simp [h5], hpop _ _ _ h⟩
          · rw [if_neg h5] at h
            by_cases h6 : tg = ['}', '}']
            · rw [if_pos h6] at h; right; exact ⟨by simp [h6], hpop _ _ _ h⟩
            · rw [if_neg h6] at h
              by_cases h7 : List.take 1 tg = ['/']
              · rw [if_pos h7] at h
                have hne : tg ≠ ['n', 'o', 'w', 'i', 'k', 'i', '/'] := by
                  intro he
                  rw [he] at h7
                  exact absurd h7 (by decide)
                right
                exact ⟨by simp [hne], hpop2 _ _ _ h⟩
              · rw [if_neg h7] at h
                by_cases h8 : tg = ['n', 'o', 'w', 'i', 'k', 'i', '/']
                · rw [if_pos h8] at h
                  by_cases h8a : ns = true
                  · rw [if_pos h8a] at h
                    cases h
                    left
                    exact ⟨by simp [h2f, h4f, h8, h8a], rfl⟩
                  · have h8af : ns = false := by revert h8a; cases ns <;> simp
                    rw [if_neg h8a] at h
                    cases h
                    right
                    exact ⟨by simp [h8af], rfl⟩
                · rw [if_neg h8] at h
                  by_cases h9 : (sb || decide (tg = ['b', 'r'])) = true
                  · rw [if_pos h9] at h; cases h; right; exact ⟨by simp [h8], rfl⟩
                  · rw [if_neg h9] at h
                    by_cases h10 : (decide (List.take 1 tg = ['\'']) && topEq st tg) = true
                    · rw [if_pos h10] at h; cases h; right; exact ⟨by simp [h8], rfl⟩
                    · rw [if_neg h10] at h; cases h; right; exact ⟨by simp [h8], rfl⟩

/-- The walker state on arrival at position `tgt`, stepping the loop of
lines 1096-1159 from position `j` in state `st`; `none` when the walk
fails or never visits `tgt`. -/
def walkStateAt (p : List (List Char)) (j : Nat) (st : QuoteWalkState) (tgt : Nat) :
    Option QuoteWalkState :=
  if j = tgt then some st
  else if hj : j < p.length then
    match quoteWalkStep p j st with
    | .fail => none
    | .cont st2 => walkStateAt p (j + 2) st2 tgt
  else none
  termination_by p.length - j
  decreasing_by omega

theorem walkStateAt_self (p : List (List Char)) (j : Nat) (st : QuoteWalkState) :
    walkStateAt p j st j = some st := by
  rw [walkStateAt]
  rw [if_pos rfl]

theorem walkStateAt_step {p : List (List Char)} {j : Nat} {st st2 : QuoteWalkState}
    (tgt : Nat) (hne : j ≠ tgt) (hj : j < p.length)
    (h : quoteWalkStep p j st = .cont st2) :
    walkStateAt p j st tgt = walkStateAt p (j + 2) st2 tgt := by
  rw [walkStateAt]
  rw [if_neg hne, dif_pos hj, h]

theorem walkStateAt_none_of_lt :
    ∀ (fuel : Nat) (p : List (List Char)) (j : Nat) (st : QuoteWalkState) (tgt : Nat),
      p.length - j ≤ fuel → tgt < j → walkStateAt p j st tgt = none := by
  intro fuel
  induction fuel with
  | zero =>
    intro p j st tgt hf ht
    rw [walkStateAt, if_neg (by omega)]
    rw [dif_neg (by omega)]
  | succ n ih =>
    intro p j st tgt hf ht
    rw [walkStateAt, if_neg (by omega)]
    by_cases hj : j < p.length
    · rw [dif_pos hj]
      cases hstep : quoteWalkStep p j st with
      | fail => rfl
      | cont st2 => exact ih p (j + 2) st2 tgt (by omega) (by omega)
    · rw [dif_neg hj]

/-- A successful walk reports either its inherited `nowikiIndex` with
no visited position strippable, or the last strippable position: the
walker set the slot there, and no later visited position is
strippable. -/
theorem quoteWalkFrom_last :
    ∀ (fuel : Nat) (p : List (List Char)) (j : Nat) (st : QuoteWalkState) (idx : Nat),
      p.length - j ≤ fuel →
      quoteWalkFrom p j st = some (some idx) →
      (st.nowikiIndex = some idx
          ∧ ∀ j2 st2, j ≤ j2 → j2 < p.length →
              walkStateAt p j st j2 = some st2 → setsNowikiAt p j2 st2 = false)
        ∨ (j ≤ idx ∧ idx < p.length
            ∧ (∃ st1, walkStateAt p j st idx = some st1 ∧ setsNowikiAt p idx st1 = true)
            ∧ ∀ j2 st2, idx < j2 → j2 < p.length →
                walkStateAt p j st j2 = some st2 → setsNowikiAt p j2 st2 = false) := by
  intro fuel
  induction fuel with
  | zero =>
    intro p j st idx hf h
    have hj : ¬(j < p.length) := by omega
    unfold quoteWalkFrom at h
    rw [dif_neg hj] at h
    split at h
    · left
      constructor
      · simpa using h
      · intro j2 st2 hj2 hlt _
        omega
    · simp at h
  | succ n ih =>
    intro p j st idx hf h
    by_cases hj : j < p.length
    · unfold quoteWalkFrom at h
      rw [dif_pos hj] at h
      cases hstep : quoteWalkStep p j st with
      | fail => rw [hstep] at h; simp at h
      | cont st2 =>
        rw [hstep] at h
        have hrec := ih p (j + 2) st2 idx (by omega) h
        rcases quoteWalkStep_sets hstep with ⟨hset, hidx2⟩ | ⟨hnoset, hidx2⟩
        · rcases hrec with ⟨hkeep, hclean⟩ | ⟨hge, hlt, hex, hclean⟩
          · rw [hidx2] at hkeep
            have hji : j = idx := by injection hkeep
            right
            refine ⟨by omega, by rw [← hji]; exact hj, ⟨st, ?_, ?_⟩, ?_⟩
            · rw [← hji]
              exact walkStateAt_self p j st
            · rw [← hji]
              exact hset
            · intro j2 st2x hj2 hj2l hw
              have hj2ne : j ≠ j2 := by omega
              rw [walkStateAt_step j2 hj2ne hj hstep] at hw
              by_cases hj22 : j + 2 ≤ j2
              · exact hclean j2 st2x hj22 hj2l hw
              · have hnone : walkStateAt p (j + 2) st2 j2 = none :=
                  walkStateAt_none_of_lt p.length p (j + 2) st2 j2 (by omega) (by omega)
                rw [hnone] at hw
                simp at hw
          · right
            refine ⟨by omega, hlt, ?_, ?_⟩
            · obtain ⟨st1, hw1, hs1⟩ := hex
              refine ⟨st1, ?_, hs1⟩
              rw [walkStateAt_step idx (by omega) hj hstep]
              exact hw1
            · intro j2 st2x hj2 hj2l hw
              rw [walkStateAt_step j2 (by omega) hj hstep] at hw
              exact hclean j2 st2x hj2 hj2l hw
        · rcases hrec with ⟨hkeep, hclean⟩ | ⟨hge, hlt, hex, hclean⟩
          · left
            constructor
            · rw [hidx2] at hkeep
              exact hkeep
            · intro j2 st2x hj2 hj2l hw
              by_cases hj2e : j2 = j
              · subst hj2e
                rw [walkStateAt_self] at hw
                simp only [Option.some.injEq] at hw
                rw [← hw]
                exact hnoset
              · have hj2ne : j ≠ j2 := fun he => hj2e he.symm
                rw [walkStateAt_step j2 hj2ne hj hstep] at hw
                by_cases hj22 : j + 2 ≤ j2
                · exact hclean j2 st2x hj22 hj2l hw
                · have hnone : walkStateAt p (j + 2) st2 j2 = none :=
                    walkStateAt_none_of_lt p.length p (j + 2) st2 j2 (by omega) (by omega)
                  rw [hnone] at hw
                  simp at hw
          · right
            refine ⟨by omega, hlt, ?_, ?_⟩
            · obtain ⟨st1, hw1, hs1⟩ := hex
              refine ⟨st1, ?_, hs1⟩
              rw [walkStateAt_step idx (by omega) hj hstep]
              exact hw1
            · intro j2 st2x hj2 hj2l hw
              rw [walkStateAt_step j2 (by omega) hj hstep] at hw
              exact hclean j2 st2x hj2 hj2l hw
    · unfold quoteWalkFrom at h
      rw [dif_neg hj] at h
      split at h
      · left
        constructor
        · simpa using h
        · intro j2 st2 hj2 hlt _
          omega
      · simp at h

/-- C7: a line of the quote-adjacent-nowiki post-pass is returned
unchanged whenever the bracket/quote/tag walk fails (mismatched pop or
non-empty stack at end of line, lines 1115-1124 and 1161-1165); and in
every case the pass either leaves the line unchanged or deletes exactly
one token, which is a self-closing `<nowiki .. />` tag that was
strippable when the walker reached it and is the last strippable one:
no position visited after it satisfies the strippability condition. -/
theorem c7_quote_nowiki_line (line : List Char) :
    (quoteWalkFrom (splitQuoteToks line) 1 initQuoteWalkState = none →
      stripQuoteLine line = line)
    ∧ (stripQuoteLine line = line
        ∨ ∃ idx pre tok post,
            quoteWalkFrom (splitQuoteToks line) 1 initQuoteWalkState = some (some idx)
            ∧ tok = (splitQuoteToks line).getD idx []
            ∧ line = pre ++ (tok ++ post)
            ∧ stripQuoteLine line = pre ++ post
            ∧ startsWith ['<', 'n', 'o', 'w', 'i', 'k', 'i'] tok = true
            ∧ tok.reverse.take 2 = ['>', '/']
            ∧ (∃ st1, walkStateAt (splitQuoteToks line) 1 initQuoteWalkState idx
                    = some st1
                ∧ setsNowikiAt (splitQuoteToks line) idx st1 = true)
            ∧ (∀ j2 st2, idx < j2 → j2 < (splitQuoteToks line).length →
                walkStateAt (splitQuoteToks line) 1 initQuoteWalkState j2 = some st2 →
                setsNowikiAt (splitQuoteToks line) j2 st2 = false)) := by
  by_cases hc : (!(containsNowikiSelfClose line && line.contains '\'')) = true
  · constructor
    · intro _
      unfold stripQuoteLine
      rw [if_pos hc]
    · left
      unfold stripQuoteLine
      rw [if_pos hc]
  · cases hw : quoteWalkFrom (splitQuoteToks line) 1 initQuoteWalkState with
    | none =>
      constructor
      · intro _
        unfold stripQuoteLine
        rw [if_neg hc]
        simp only []
        rw [hw]
      · left
        unfold stripQuoteLine
        rw [if_neg hc]
        simp only []
        rw [hw]
    | some oidx =>
      cases oidx with
      | none =>
        constructor
        · intro _
          unfold stripQuoteLine
          rw [if_neg hc]
          simp only []
          rw [hw]
        · left
          unfold stripQuoteLine
          rw [if_neg hc]
          simp only []
          rw [hw]
      | some idx =>
        have hres := quoteWalkFrom_result (splitQuoteToks line).length
          (splitQuoteToks line) 1 initQuoteWalkState idx (by omega) hw
        rcases hres with hinit | ⟨hge, hlt, hpar, htag⟩
        · exact absurd hinit (by simp [initQuoteWalkState])
        · obtain ⟨l2, tok, rest, hq, hval0⟩ :=
            splitQuoteToksGo_odd line.length line [] idx (Nat.le_refl _) (by omega)
              (show idx < (splitQuoteToksGo [] line).length from hlt)
          have hval : (splitQuoteToks line).getD idx [] = tok := hval0
          have htag2 : (sepTagOf tok).1 = ['n', 'o', 'w', 'i', 'k', 'i', '/'] := by
            rw [← hval]
            exact htag
          obtain ⟨hsw, hsc⟩ := quoteSep_nowiki_tag_shape hq htag2
          obtain ⟨hjoin, hjoinset⟩ := joinAll_set_nil (splitQuoteToks line) idx hlt
          have hline : line = joinAll ((splitQuoteToks line).take idx)
              ++ ((splitQuoteToks line).getD idx []
                  ++ joinAll ((splitQuoteToks line).drop (idx + 1))) := by
            conv_lhs => rw [← splitQuoteToks_joinAll line]
            exact hjoin
          have hlast := quoteWalkFrom_last (splitQuoteToks line).length
            (splitQuoteToks line) 1 initQuoteWalkState idx (by omega) hw
          rcases hlast with ⟨hinit2, -⟩ | ⟨-, -, hex, hclean⟩
          · exact absurd hinit2 (by simp [initQuoteWalkState])
          constructor
          · intro hnone
            simp at hnone
          · right
            refine ⟨idx, joinAll ((splitQuoteToks line).take idx), tok,
              joinAll ((splitQuoteToks line).drop (idx + 1)), rfl, hval.symm,
              ?_, ?_, hsw, hsc, hex, hclean⟩
            · conv_lhs => rw [hline]
              rw [hval]
            · unfold stripQuoteLine
              rw [if_neg hc]
              simp only []
              rw [hw]
              exact hjoinset

end WTS

namespace WTS

unseal splitQuoteToksGo quoteWalkFrom

theorem c7_quote_nowiki_line_witness :
    quoteWalkFrom (splitQuoteToks ('[' :: '[' :: 'x' :: ' ' :: '\'' :: "<nowiki/>".data)) 1
        initQuoteWalkState = none
      ∧ stripQuoteLine ('[' :: '[' :: 'x' :: ' ' :: '\'' :: "<nowiki/>".data)
        = ('[' :: '[' :: 'x' :: ' ' :: '\'' :: "<nowiki/>".data) :=
  ⟨by decide, (c7_quote_nowiki_line _).1 (by decide)⟩

end WTS

namespace WTS

theorem dropWhile_length_le (p : Char → Bool) (l : List Char) :
    (l.dropWhile p).length ≤ l.length := by
  induction l with
  | nil => simp
  | cons c cs ih =>
    by_cases h : p c = true <;> simp [List.dropWhile_cons, h] <;> omega

theorem dropWhile_append_of_ne_nil {p : Char → Bool} :
    ∀ {a : List Char} (b : List Char), a.dropWhile p ≠ [] →
      (a ++ b).dropWhile p = a.dropWhile p ++ b := by
  intro a
  induction a with
  | nil => intro b h; exact absurd rfl h
  | cons c cs ih =>
    intro b h
    by_cases hc : p c = true
    · rw [List.cons_append, List.dropWhile_cons_of_pos hc, List.dropWhile_cons_of_pos hc]
      rw [List.dropWhile_cons_of_pos hc] at h
      exact ih b h
    · rw [List.cons_append, List.dropWhile_cons_of_neg hc, List.dropWhile_cons_of_neg hc]
      rfl

theorem dropWhile_append_of_nil {p : Char → Bool} :
    ∀ {a : List Char} (b : List Char), a.dropWhile p = [] →
      (a ++ b).dropWhile p = b.dropWhile p := by
  intro a
  induction a with
  | nil => intro b _; rfl
  | cons c cs ih =>
    intro b h
    by_cases hc : p c = true
    · rw [List.cons_append, List.dropWhile_cons_of_pos hc]
      rw [List.dropWhile_cons_of_pos hc] at h
      exact ih b h
    · rw [List.dropWhile_cons_of_neg hc] at h
      simp at h

/-- One `<nowiki\s*\/>` chunk at the head of a piece, from the regexp
of line 1234; yields the remainder after the `/>`. -/
def nowikiClose (l : List Char) : Option (List Char) :=
  match l with
  | '<' :: 'n' :: 'o' :: 'w' :: 'i' :: 'k' :: 'i' :: r =>
    match r.dropWhile isSpaceChar with
    | '/' :: '>' :: r2 => some r2
    | _ => none
  | _ => none

theorem nowikiClose_length {l r : List Char} (h : nowikiClose l = some r) :
    r.length < l.length := by
  unfold nowikiClose at h
  split at h
  · rename_i r0
    split at h
    · rename_i r2 hdrop
      simp only [Option.some.injEq] at h
      subst h
      have h1 := dropWhile_length_le isSpaceChar r0
      rw [hdrop] at h1
      simp only [List.length_cons] at h1 ⊢
      omega
    · simp at h
  · simp at h

theorem nowikiClose_head {l r : List Char} (h : nowikiClose l = some r) :
    ∃ t, l = '<' :: t := by
  unfold nowikiClose at h
  split at h
  · exact ⟨_, rfl⟩
  · simp at h

theorem nowikiClose_append {l r : List Char} (b : List Char)
    (h : nowikiClose l = some r) :
    nowikiClose (l ++ b) = some (r ++ b) := by
  unfold nowikiClose at h
  split at h
  · rename_i r0
    split at h
    · rename_i r2 hdrop
      simp only [Option.some.injEq] at h
      subst h
      have hne : r0.dropWhile isSpaceChar ≠ [] := by rw [hdrop]; simp
      show nowikiClose ('<' :: 'n' :: 'o' :: 'w' :: 'i' :: 'k' :: 'i' :: (r0 ++ b))
        = some (r2 ++ b)
      have e1 : nowikiClose ('<' :: 'n' :: 'o' :: 'w' :: 'i' :: 'k' :: 'i' :: (r0 ++ b))
          = (match (r0 ++ b).dropWhile isSpaceChar with
             | '/' :: '>' :: r3 => some r3
             | _ => none) := rfl
      rw [e1, dropWhile_append_of_ne_nil b hne, hdrop]
      rfl
    · simp at h
  · simp at h

/-- `(?:<nowiki\s*\/>\s*)+` matching a whole piece: the tail of the
regexp of line 1234. -/
def isNowikiRun (l : List Char) : Bool :=
  match h : nowikiClose l with
  | none => false
  | some r =>
    let r2 := r.dropWhile isSpaceChar
    if r2.isEmpty then true else isNowikiRun r2
  termination_by l.length
  decreasing_by
    have h1 := nowikiClose_length h
    have h2 := dropWhile_length_le isSpaceChar r
    omega

theorem isNowikiRun_head {l : List Char} (h : isNowikiRun l = true) :
    ∃ t, l = '<' :: t := by
  unfold isNowikiRun at h
  split at h
  · simp at h
  · rename_i r heq
    exact nowikiClose_head heq

end WTS

namespace WTS

/-- Two whole-string runs concatenate to a whole-string run. -/
theorem isNowikiRun_append :
    ∀ (n : Nat) (a : List Char), a.length ≤ n → ∀ (b : List Char),
      isNowikiRun a = true → isNowikiRun b = true → isNowikiRun (a ++ b) = true := by
  intro n
  induction n with
  | zero =>
    intro a ha b hA hB
    have hnil : a = [] := List.length_eq_zero.mp (Nat.le_zero.mp ha)
    subst hnil
    simpa using hB
  | succ n ih =>
    intro a ha b hA hB
    unfold isNowikiRun at hA
    split at hA
    · simp at hA
    · rename_i r heq
      simp only [] at hA
      obtain ⟨tb, hb⟩ := isNowikiRun_head hB
      have hbdrop : b.dropWhile isSpaceChar = b := by
        rw [hb, List.dropWhile_cons_of_neg (by decide)]
      unfold isNowikiRun
      split
      · rename_i hnone
        rw [nowikiClose_append b heq] at hnone
        simp at hnone
      · rename_i r' heq2
        rw [nowikiClose_append b heq] at heq2
        simp only [Option.some.injEq] at heq2
        subst heq2
        simp only []
        by_cases hem : (r.dropWhile isSpaceChar).isEmpty = true
        · have hrnil : r.dropWhile isSpaceChar = [] := by
            cases hx : r.dropWhile isSpaceChar with
            | nil => rfl
            | cons c0 cs0 => rw [hx] at hem; simp at hem
          rw [dropWhile_append_of_nil b hrnil, hbdrop, hb]
          rw [if_neg (by simp)]
          rw [← hb]
          exact hB
        · have hne : r.dropWhile isSpaceChar ≠ [] := by
            intro hn
            rw [hn] at hem
            exact hem rfl
          obtain ⟨c0, cs0, hcons⟩ : ∃ c0 cs0, r.dropWhile isSpaceChar = c0 :: cs0 := by
            cases hx : r.dropWhile isSpaceChar with
            | nil => exact absurd hx hne
            | cons c0 cs0 => exact ⟨c0, cs0, rfl⟩
          rw [if_neg (by rw [hcons]; simp)] at hA
          rw [dropWhile_append_of_ne_nil b hne]
          rw [if_neg (by rw [hcons]; simp)]
          have hlen : (r.dropWhile isSpaceChar).length ≤ n := by
            have h1 := nowikiClose_length heq
            have h2 := dropWhile_length_le isSpaceChar r
            omega
          exact ih _ hlen b hA hB

/-- Least `k < n` satisfying `f`, scanning from below. -/
def leastBelow (f : Nat → Bool) : Nat → Option Nat
  | 0 => none
  | n + 1 =>
    match leastBelow f n with
    | some k => some k
    | none => if f n then some n else none

theorem leastBelow_none {f : Nat → Bool} :
    ∀ {n : Nat}, leastBelow f n = none → ∀ j, j < n → f j = false := by
  intro n
  induction n with
  | zero => intro _ j hj; omega
  | succ n ih =>
    intro h j hj
    unfold leastBelow at h
    split at h
    · simp at h
    · rename_i hrec
      by_cases hjn : j < n
      · exact ih hrec j hjn
      · have hje : j = n := by omega
        subst hje
        by_cases hf : f j = true
        · rw [if_pos hf] at h
          simp at h
        · exact Bool.eq_false_iff.mpr hf

theorem leastBelow_some {f : Nat → Bool} :
    ∀ {n k : Nat}, leastBelow f n = some k →
      f k = true ∧ k < n ∧ ∀ j, j < k → f j = false := by
  intro n
  induction n with
  | zero => intro k h; simp [leastBelow] at h
  | succ n ih =>
    intro k h
    unfold leastBelow at h
    split at h
    · rename_i k0 hrec
      simp only [Option.some.injEq] at h
      subst h
      obtain ⟨h1, h2, h3⟩ := ih hrec
      exact ⟨h1, by omega, h3⟩
    · rename_i hrec
      by_cases hf : f n = true
      · rw [if_pos hf] at h
        simp only [Option.some.injEq] at h
        subst h
        exact ⟨hf, by omega, leastBelow_none hrec⟩
      · rw [if_neg hf] at h
        simp at h

/-- The whole-line match of `/^([^=]*?)(?:<nowiki\s*\/>\s*)+$/` at cut
position `k`: the lazy prefix is `=`-free and the rest of the line is a
self-closing-nowiki run. -/
def trailingNowikiProp (l : List Char) (k : Nat) : Bool :=
  (l.take k).all (fun c => c ≠ '=') && isNowikiRun (l.drop k)

/-- `piece.replace(/^([^=]*?)(?:<nowiki\s*\/>\s*)+$/, '$1')`
(line 1234): the lazy quantifier keeps the shortest admissible prefix. -/
def stripTrailingNowikisLine (l : List Char) : List Char :=
  match leastBelow (trailingNowikiProp l) (l.length + 1) with
  | none => l
  | some k => l.take k

/-- Lines 1233-1235: split the buffer on newlines, apply the per-line
replace, and rejoin. -/
def stripTrailingNowikis (out : List Char) : List Char :=
  joinLines ((splitLines out).map stripTrailingNowikisLine)

end WTS

namespace WTS

unseal isNowikiRun

theorem isNowikiRun_nil : isNowikiRun [] = false := by decide

/-- After cutting at the least admissible position, no admissible
position is left: the lazy-prefix match cannot fire again. -/
theorem trailing_take_none {l : List Char} {k : Nat}
    (h : leastBelow (trailingNowikiProp l) (l.length + 1) = some k) :
    leastBelow (trailingNowikiProp (l.take k)) ((l.take k).length + 1) = none := by
  obtain ⟨hk, hkn, hmin⟩ := leastBelow_some h
  have hkl : k ≤ l.length := by omega
  have hlen : (l.take k).length = k := by
    rw [List.length_take]
    omega
  cases heq : leastBelow (trailingNowikiProp (l.take k)) ((l.take k).length + 1) with
  | none => rfl
  | some k2 =>
    exfalso
    obtain ⟨hk2, hk2n, -⟩ := leastBelow_some heq
    unfold trailingNowikiProp at hk2
    simp only [Bool.and_eq_true] at hk2
    obtain ⟨hall2, hrun2⟩ := hk2
    have hk2k : k2 < k := by
      rcases Nat.lt_or_ge k2 k with hlt | hge
      · exact hlt
      · exfalso
        have hnil : (l.take k).drop k2 = [] := by
          apply List.drop_eq_nil_of_le
          omega
        rw [hnil, isNowikiRun_nil] at hrun2
        exact absurd hrun2 (by decide)
    unfold trailingNowikiProp at hk
    simp only [Bool.and_eq_true] at hk
    obtain ⟨hall, hrun⟩ := hk
    have hfalse := hmin k2 (by omega)
    have htake : (l.take k).take k2 = l.take k2 := by
      rw [List.take_take]
      congr 1
      omega
    have hdrop : l.drop k2 = (l.take k).drop k2 ++ l.drop k := by
      conv_lhs => rw [← List.take_append_drop k l]
      rw [List.drop_append_eq_append_drop, hlen]
      rw [show k2 - k = 0 from by omega]
      rfl
    have hP : trailingNowikiProp l k2 = true := by
      unfold trailingNowikiProp
      rw [hdrop]
      simp only [Bool.and_eq_true]
      constructor
      · rw [← htake]
        exact hall2
      · exact isNowikiRun_append ((l.take k).drop k2).length _ (Nat.le_refl _) _ hrun2 hrun
    rw [hP] at hfalse
    exact absurd hfalse (by decide)

/-- The per-line trailing-nowiki replace is idempotent. -/
theorem stripTrailingNowikisLine_idem (l : List Char) :
    stripTrailingNowikisLine (stripTrailingNowikisLine l) = stripTrailingNowikisLine l := by
  cases h : leastBelow (trailingNowikiProp l) (l.length + 1) with
  | none =>
    have e : stripTrailingNowikisLine l = l := by
      unfold stripTrailingNowikisLine
      rw [h]
    rw [e]
    exact e
  | some k =>
    have e : stripTrailingNowikisLine l = l.take k := by
      unfold stripTrailingNowikisLine
      rw [h]
    have e2 : stripTrailingNowikisLine (l.take k) = l.take k := by
      unfold stripTrailingNowikisLine
      rw [trailing_take_none h]
    rw [e]
    exact e2

theorem stripTrailingNowikisLine_no_newline {l : List Char} (h : '\n' ∉ l) :
    '\n' ∉ stripTrailingNowikisLine l := by
  unfold stripTrailingNowikisLine
  split
  · exact h
  · intro hmem
    exact h (List.take_subset _ _ hmem)

/-- The whole trailing-nowiki pass of lines 1233-1235 is idempotent. -/
theorem stripTrailingNowikis_idem (out : List Char) :
    stripTrailingNowikis (stripTrailingNowikis out) = stripTrailingNowikis out := by
  unfold stripTrailingNowikis
  have h0 : splitLines out ≠ [] := splitLinesAux_ne_nil [] out
  have hne : (splitLines out).map stripTrailingNowikisLine ≠ [] := by
    simp only [ne_eq, List.map_eq_nil_iff]
    exact h0
  have hnl : ∀ x ∈ (splitLines out).map stripTrailingNowikisLine, '\n' ∉ x := by
    intro x hx
    obtain ⟨y, hy, rfl⟩ := List.mem_map.mp hx
    exact stripTrailingNowikisLine_no_newline (mem_splitLines_no_newline out y hy)
  rw [splitLines_joinLines _ hne hnl]
  rw [List.map_map]
  congr 1
  apply List.map_congr_left
  intro x _
  exact stripTrailingNowikisLine_idem x

end WTS

namespace WTS

/-- Case-insensitive literal match (the split regexp of lines 1016-1019
carries the `i` flag); `pat` is given lowercased, returns the rest. -/
def matchCI : List Char → List Char → Option (List Char)
  | [], l => some l
  | _ :: _, [] => none
  | p :: ps, c :: cs => if c.toLower = p then matchCI ps cs else none

/-- The `(<nowiki>\s+</nowiki>)` group (case-insensitive) at the head:
returns the original matched text, the whitespace, and the rest. -/
def parseNowikiWs (l : List Char) : Option (List Char × List Char × List Char) :=
  match matchCI ['<', 'n', 'o', 'w', 'i', 'k', 'i', '>'] l with
  | none => none
  | some r1 =>
    let ws := r1.takeWhile isSpaceChar
    if ws.isEmpty then none
    else
      match matchCI ['<', '/', 'n', 'o', 'w', 'i', 'k', 'i', '>'] (r1.drop ws.length) with
      | none => none
      | some rest => some (l.take (8 + ws.length + 9), ws, rest)

/-- `nowiki.replace(/^<nowiki>(\s+)<\/nowiki>/, repl)` (lines 1052 and
1054): the text is case-insensitively `<nowiki>ws</nowiki>`, but this
inner regexp is case-sensitive, so it fires only when the tags are
lowercase in the original. -/
def innerStripNowiki (orig ws repl : List Char) : List Char :=
  if orig = ['<', 'n', 'o', 'w', 'i', 'k', 'i', '>'] ++ ws
      ++ ['<', '/', 'n', 'o', 'w', 'i', 'k', 'i', '>']
  then repl else orig

/-- One match of `/<[^!][^<>]*>/` at the head of the list (line 1027):
the tag text and the rest. -/
def matchHtmlTagAt (l : List Char) : Option (List Char × List Char) :=
  match l with
  | '<' :: c :: rest =>
    if c = '!' then none
    else
      match h : rest.dropWhile (fun d => !(d = '<' || d = '>')) with
      | '>' :: r3 =>
        some ('<' :: c :: (rest.takeWhile (fun d => !(d = '<' || d = '>'))) ++ ['>'], r3)
      | _ => none
  | _ => none

theorem matchHtmlTagAt_length {l tag rest2 : List Char}
    (h : matchHtmlTagAt l = some (tag, rest2)) : rest2.length < l.length := by
  unfold matchHtmlTagAt at h
  split at h
  · rename_i c rest
    split at h
    · simp at h
    · split at h
      · rename_i r3 hdrop
        simp only [Option.some.injEq, Prod.mk.injEq] at h
        have h1 := dropWhile_length_le (fun d => !(d = '<' || d = '>')) rest
        rw [hdrop] at h1
        simp only [List.length_cons] at h1 ⊢
        rw [← h.2]
        omega
      · simp at h
  · simp at h

/-- `rest.match(/<[^!][^<>]*>/g) || []` (line 1027). -/
def findHtmlTags (l : List Char) : List (List Char) :=
  match l with
  | [] => []
  | c :: rest =>
    match h : matchHtmlTagAt (c :: rest) with
    | some (tag, rest2) => tag :: findHtmlTags rest2
    | none => findHtmlTags rest
  termination_by l.length
  decreasing_by
    · exact matchHtmlTagAt_length h
    · simp

/-- `htmlTags[j].replace(/<\/?|\s.*|>/g, '')` (line 1035): the global
replace deletes `<` or `</`, every `>`, and everything from the first
whitespace character on. -/
def stripTagJunk : List Char → List Char
  | [] => []
  | '<' :: '/' :: r => stripTagJunk r
  | '<' :: r => stripTagJunk r
  | '>' :: r => stripTagJunk r
  | c :: r => c :: stripTagJunk r

def tagNameOf (tag : List Char) : List Char :=
  (stripTagJunk (tag.takeWhile (fun d => !isSpaceChar d))).map Char.toUpper

/-- External collaborators of `_stripUnnecessaryIndentPreNowikis`: the
per-wiki sol-transparent regexps (as oracles: the prefix length the
engine matched, and the `.test` result), the HTML5/block tag registries
(Consts.HTML), and `env.scrubWikitext`. -/
structure IndentPreEnv where
  solPrefixLen : List Char → Option Nat
  solTransTest : List Char → Bool
  html5Tags : List (List Char)
  blockTags : List (List Char)
  scrub : Bool

/-- The tag scan of lines 1033-1048: any non-HTML5 tag forces the
nowiki to stay (break with `reqd = true`); block tags suppress it. -/
def tagLoop (env : IndentPreEnv) : List (List Char) → Bool → Bool
  | [], reqd => reqd
  | t :: ts, reqd =>
    let tn := tagNameOf t
    if !(env.html5Tags.contains tn) then true
    else if env.blockTags.contains tn then tagLoop env ts false
    else tagLoop env ts reqd

/-- `_stripUnnecessaryIndentPreNowikis` (lines 1012-1060), scanning the
buffer line by line: the split regexp is anchored `^` (multiline) and
its last group eats `[^\n]*(?:\n|$)`, so each match spans one line.
The third capture (`rest`) keeps its trailing newline, which the
`rest.replace(/^\s*/, '')` of line 1055 can then delete. -/
def stripIndentPreGo (env : IndentPreEnv) (l : List Char) : List Char :=
  if l = [] then []
  else
    let content := l.takeWhile (fun c => c ≠ '\n')
    let hasNl : Bool := content.length < l.length
    let after := l.drop (content.length + 1)
    let tailRec : List Char := if hasNl then stripIndentPreGo env after else []
    let nlChar : List Char := if hasNl then ['\n'] else []
    match env.solPrefixLen content with
    | none => content ++ nlChar ++ tailRec
    | some k =>
      match parseNowikiWs (content.drop k) with
      | none => content ++ nlChar ++ tailRec
      | some (orig, ws, restAfter) =>
        let sol := content.take k
        let rest := restAfter ++ nlChar
        let reqd0 := !(env.solTransTest rest)
        let reqd := if reqd0 then tagLoop env (findHtmlTags rest) true else false
        if !reqd then
          sol ++ innerStripNowiki orig ws ws ++ rest ++ tailRec
        else if env.scrub then
          sol ++ innerStripNowiki orig ws [] ++ (rest.dropWhile isSpaceChar) ++ tailRec
        else
          content ++ nlChar ++ tailRec
  termination_by l.length
  decreasing_by
    all_goals
      (rename_i hne
       simp only [List.length_drop]
       have hpos : 0 < l.length := List.length_pos.mpr hne
       omega)

def stripIndentPreNowikis (env : IndentPreEnv) (out : List Char) : List Char :=
  stripIndentPreGo env out

end WTS

namespace WTS

unseal findHtmlTags stripIndentPreGo splitQuoteToksGo quoteWalkFrom

/-- A buffer line with two quote-adjacent self-closing nowikis. -/
def c4qLine : List Char :=
  'a' :: '\'' :: "<nowiki/>b c".data ++ '\'' :: "<nowiki/>d".data

/-- The parameters of the indent-pre counterexample: an empty
sol-transparent prefix always matches, nothing is fully
sol-transparent, DIV is a known HTML5 block tag, and scrubWikitext is
on. -/
def c4PreEnv : IndentPreEnv :=
  { solPrefixLen := fun _ => some 0
    solTransTest := fun _ => false
    html5Tags := [['D', 'I', 'V']]
    blockTags := [['D', 'I', 'V']]
    scrub := true }

/-- A line with two indent-pre nowikis before a block tag. -/
def c4PreLine : List Char :=
  "<nowiki> </nowiki><nowiki> </nowiki><div>x</div>".data

/-- C4 counterexample: the quote-adjacent-nowiki pass is not
idempotent. One application strips only the last strippable nowiki;
the leading nowiki becomes strippable once the trailing one is gone,
so a second application strips it too. -/
theorem c4_counterexample :
    stripQuoteNowikis c4qLine
        = ('a' :: '\'' :: "<nowiki/>b c".data ++ '\'' :: "d".data)
      ∧ stripQuoteNowikis ('a' :: '\'' :: "<nowiki/>b c".data ++ '\'' :: "d".data)
        = ('a' :: '\'' :: "b c".data ++ '\'' :: "d".data)
      ∧ stripQuoteNowikis (stripQuoteNowikis c4qLine) ≠ stripQuoteNowikis c4qLine :=
  ⟨by decide, by decide, by decide⟩

/-- C4 (amended): of the three post-pass rewrites, only the trailing
self-closing-nowiki strip is idempotent. The quote-adjacent strip is
not: a second application can strip a further nowiki. The indent-pre
strip is not idempotent either when scrubWikitext is set: deleting a
non-required nowiki can expose a following nowiki on the same line to
stripping by a second application. -/
theorem c4_amended_postpass_idempotence :
    (∀ out : List Char,
        stripTrailingNowikis (stripTrailingNowikis out) = stripTrailingNowikis out)
      ∧ stripQuoteNowikis (stripQuoteNowikis c4qLine) ≠ stripQuoteNowikis c4qLine
      ∧ stripIndentPreNowikis c4PreEnv (stripIndentPreNowikis c4PreEnv c4PreLine)
          ≠ stripIndentPreNowikis c4PreEnv c4PreLine :=
  ⟨stripTrailingNowikis_idem, by decide, by decide⟩

end WTS
